import Mathlib

/-!
# AutoAgent-System: verification of the orchestration core

This file gives a shallow embedding, in Lean 4, of the orchestration core of
the AutoAgent-System repository (`src/services/orchestrator.ts`), and settles
the specification claims about it.

The repository source contains two revisions of `orchestrator.ts`.  We embed
both where they differ:

* `stepV1` / `runPlanV1` / `createExecutionPlanV1` — the execution-plan
  grouper of the first revision (`createExecutionPlan`, first revision).
* `stepV2` / `runPlanV2` / `createExecutionPlanV2` — the grouper of the second
  revision, which adds a special case for image-generation tasks.
* `limStep` / `runLim` — an event-level model of `createPLimit` (second
  revision), the concurrency limiter.
* `processTask` and its helpers — the task state machine of the first
  revision, with every external collaborator (LLM decomposition, agent
  generation, GitHub search, primary/sandbox executors, PDF generation,
  backend sync, the clock, `JSON.stringify`) supplied by a `World` record,
  so that theorems can quantify over all collaborator behaviours.
* `runNotify` — the observer bus (`notifyListeners`), modelled with the
  semantics of iterating a JS `Set` while listeners may unsubscribe entries.

JavaScript `while` loops that can diverge (the grouper diverges on duplicate
subtask ids) are embedded with an explicit fuel parameter; `none` means the
loop is still running when the fuel runs out.
-/

namespace AutoAgent

/-! ## String helpers (JS `String.prototype.includes`, `toLowerCase`) -/

/-- Character-wise lowercasing, as JS `toLowerCase` acts on the ASCII letters
used by the orchestrator's keyword tables. -/
def toLowerStr (s : String) : String := String.mk (s.data.map Char.toLower)

/-- `startsWithList hay needle`: `needle` occurs at the head of `hay`. -/
def startsWithList : List Char → List Char → Bool
  | _, [] => true
  | [], _ :: _ => false
  | c :: cs, d :: ds => c == d && startsWithList cs ds

/-- `hasSubList hay needle`: `needle` occurs somewhere in `hay`. -/
def hasSubList : List Char → List Char → Bool
  | [], ns => ns.isEmpty
  | c :: cs, ns => startsWithList (c :: cs) ns || hasSubList cs ns

/-- JS `hay.includes(needle)`. -/
def strIncludes (hay needle : String) : Bool := hasSubList hay.data needle.data

/-! ## Data model (`src/types/index.ts`) -/

/-- `SubTask.status`. -/
inductive SubStatus
  | pending | waiting | running | completed | error
deriving DecidableEq, Repr

/-- `Task.status`. -/
inductive TaskStatus
  | pending | analyzing | planning | executing | completed | error
deriving DecidableEq, Repr

/-- `Agent.status`. -/
inductive AgentStatus
  | idle | running | completed | error
deriving DecidableEq, Repr

/-- `Agent.source`. -/
inductive AgentSource
  | generated | github | leanLocal
deriving DecidableEq, Repr

/-- `LogEntry.level`. -/
inductive LogLevel
  | info | warn | error | success
deriving DecidableEq, Repr

/-- An opaque JS value, as far as the orchestrator inspects one: the executor
results are only probed for `.output`, `.success`, `.executionTime`, `.logs`,
string-ness and truthiness. -/
inductive JsVal where
  /-- JS `undefined`. -/
  | undefVal
  /-- a string value -/
  | str (s : String)
  /-- a number -/
  | num (n : Nat)
  /-- an executor result object; an absent `output` field is `undef` -/
  | exec (output : JsVal) (success : Bool) (executionTime : Option Nat)
      (logs : Option (List String))
  /-- any other object (always truthy, no relevant fields) -/
  | obj (tag : String)
deriving DecidableEq, Repr

/-- JS truthiness of a `JsVal`. -/
def jsTruthy : JsVal → Bool
  | .undefVal => false
  | .str s => !(s == "")
  | .num n => !(n == 0)
  | .exec _ _ _ _ => true
  | .obj _ => true

/-- JS `v?.output`. -/
def jsGetOutput : JsVal → JsVal
  | .exec o _ _ _ => o
  | _ => .undefVal

/-- JS `v?.logs` (an array field is returned as-is, otherwise `undefined`). -/
def jsGetLogs : JsVal → Option (List String)
  | .exec _ _ _ l => l
  | _ => none

/-- JS `v?.executionTime`. -/
def jsGetExecTime : JsVal → Option Nat
  | .exec _ _ t _ => t
  | _ => none

/-- `Parameter` (metadata only). -/
structure Parameter where
  name : String
  type : String
  description : String
  required : Bool
deriving DecidableEq, Repr

/-- `Skill` (metadata only). -/
structure Skill where
  id : String
  name : String
  description : String
  parameters : List Parameter
  returnType : String
deriving DecidableEq, Repr

/-- `AgentResult`. -/
structure AgentResult where
  output : String
  data : JsVal
  logs : List String
  executionTime : Nat
deriving DecidableEq, Repr

/-- The `input` context object attached to a subtask.  The orchestrator only
ever reads its `action` field (second-revision grouper); the rest is carried
opaquely. -/
structure SubInput where
  parentTask : String
  step : Nat
  action : Option String := none
deriving DecidableEq, Repr

/-- `SubTask`. -/
structure SubTask where
  id : String
  description : String
  agentId : Option String := none
  dependencies : List String
  status : SubStatus
  input : SubInput
  output : JsVal := .undefVal
  createdAt : Nat
  startedAt : Option Nat := none
  completedAt : Option Nat := none
deriving DecidableEq, Repr

/-- `Agent`. -/
structure Agent where
  id : String
  name : String
  description : String
  skills : List Skill
  status : AgentStatus
  code : Option String := none
  language : Option String := none
  source : AgentSource
  githubUrl : Option String := none
  createdAt : Nat
  completedAt : Option Nat := none
  result : Option AgentResult := none
  error : Option String := none
deriving DecidableEq, Repr

/-- `LogEntry`. -/
structure LogEntry where
  timestamp : Nat
  level : LogLevel
  message : String
  subTaskId : Option String := none
  agentId : Option String := none
deriving DecidableEq, Repr

/-- `Task`. -/
structure Task where
  id : String
  description : String
  status : TaskStatus
  subTasks : List SubTask
  agents : List Agent
  createdAt : Nat
  startedAt : Option Nat := none
  completedAt : Option Nat := none
  result : Option String := none
  logs : List LogEntry
deriving DecidableEq, Repr

/-- `ExecutionPlan` (the `dependencies` record is kept as an association
list). -/
structure ExecutionPlan where
  parallelGroups : List (List String)
  dependencies : List (String × List String)
  estimatedTime : Nat
deriving DecidableEq, Repr

/-! ## The dependency grouper (`createExecutionPlan`)

The JS loop keeps a `completed : Set<string>` and an array of groups.  We
model the set as a duplicate-free list in insertion order (`insertId` is
`Set.add`), so that `List.length` is the JS `Set.size`. -/

/-- JS `completed.add(x)` on a set represented as a duplicate-free list. -/
def insertId (c : List String) (x : String) : List String :=
  if x ∈ c then c else c ++ [x]

/-- `subTask.dependencies.every(dep => completed.has(dep))`. -/
def depsSatisfied (completed : List String) (st : SubTask) : Bool :=
  st.dependencies.all fun dep => decide (dep ∈ completed)

/-- The ids collected by the first pass of a round: subtasks not yet grouped
whose dependencies are all in `completed`, in input order. -/
def eligibleIds (ts : List SubTask) (completed : List String) : List String :=
  (ts.filter fun st => decide (st.id ∉ completed) && depsSatisfied completed st).map
    fun st => st.id

/-- The ids collected by the cycle-break fallback pass: all subtasks not yet
grouped, in input order. -/
def remainingIds (ts : List SubTask) (completed : List String) : List String :=
  (ts.filter fun st => decide (st.id ∉ completed)).map fun st => st.id

/-- One round's group: the eligible subtasks, or — if none is eligible — all
remaining subtasks (the cycle-break fallback). -/
def roundGroup (ts : List SubTask) (completed : List String) : List String :=
  let g := eligibleIds ts completed
  if g.isEmpty then remainingIds ts completed else g

/-- The grouper's loop state: the `completed` set and the groups emitted so
far. -/
structure PlanState where
  completed : List String
  groups : List (List String)
deriving DecidableEq, Repr

/-- One iteration of the first revision's `while` loop. -/
def stepV1 (ts : List SubTask) (s : PlanState) : PlanState :=
  let group := roundGroup ts s.completed
  ⟨group.foldl insertId s.completed, s.groups ++ [group]⟩

/-- `st?.input && st.input.action === 'generate_batch'` for the subtask found
by id (second revision). -/
def isBatchId (ts : List SubTask) (id : String) : Bool :=
  match ts.find? fun st => st.id == id with
  | some st => st.input.action == some "generate_batch"
  | none => false

/-- The second revision's `isImageGenerationTask` test on one subtask. -/
def imageDetectSub (st : SubTask) : Bool :=
  strIncludes st.description "image" || strIncludes st.description "图片" ||
    strIncludes st.description "storyboard" || strIncludes st.description "分镜" ||
    st.input.action == some "generate_batch"

/-- The second revision detects an image-generation task list. -/
def imageDetect (ts : List SubTask) : Bool := ts.any imageDetectSub

/-- One iteration of the second revision's `while` loop: same as `stepV1`
except that for image-generation inputs a round with more than one batch
subtask is split into the non-batch ids (one group, if any) followed by one
singleton group per batch id. -/
def stepV2 (img : Bool) (ts : List SubTask) (s : PlanState) : PlanState :=
  let group := roundGroup ts s.completed
  let base : PlanState := ⟨group.foldl insertId s.completed, s.groups ++ [group]⟩
  if img ∧ 1 < group.length then
    let batchTasks := group.filter fun id => isBatchId ts id
    if 1 < batchTasks.length then
      let planningTasks := group.filter fun id => decide (id ∉ batchTasks)
      let s1 : PlanState :=
        if 0 < planningTasks.length then
          ⟨planningTasks.foldl insertId s.completed, s.groups ++ [planningTasks]⟩
        else s
      batchTasks.foldl (fun acc bid => ⟨insertId acc.completed bid, acc.groups ++ [[bid]]⟩) s1
    else base
  else base

/-- The first revision's grouping loop, with explicit fuel; `none` means the
JS loop is still running after `fuel` iterations (the loop diverges on
duplicate ids, so no fuel is enough there). -/
def runPlanV1 : Nat → List SubTask → PlanState → Option (List (List String))
  | 0, ts, s => if s.completed.length < ts.length then none else some s.groups
  | fuel + 1, ts, s =>
    if s.completed.length < ts.length then runPlanV1 fuel ts (stepV1 ts s)
    else some s.groups

/-- The second revision's grouping loop (fuelled as `runPlanV1`). -/
def runPlanV2 (img : Bool) : Nat → List SubTask → PlanState → Option (List (List String))
  | 0, ts, s => if s.completed.length < ts.length then none else some s.groups
  | fuel + 1, ts, s =>
    if s.completed.length < ts.length then runPlanV2 img fuel ts (stepV2 img ts s)
    else some s.groups

/-- `createExecutionPlan`, first revision. -/
def createExecutionPlanV1 (fuel : Nat) (ts : List SubTask) : Option ExecutionPlan :=
  (runPlanV1 fuel ts ⟨[], []⟩).map fun gs =>
    ⟨gs, ts.map fun st => (st.id, st.dependencies), ts.length * 5⟩

/-- `createExecutionPlan`, second revision. -/
def createExecutionPlanV2 (fuel : Nat) (ts : List SubTask) : Option ExecutionPlan :=
  let img := imageDetect ts
  (runPlanV2 img fuel ts ⟨[], []⟩).map fun gs =>
    ⟨gs, ts.map fun st => (st.id, st.dependencies),
      ts.length * (if img then 15 else 5)⟩

/-- The ids of an input sequence, in input order. -/
def subTaskIds (ts : List SubTask) : List String := ts.map fun st => st.id

/-! ### Lemmas about the completed set -/

theorem mem_insertId {c : List String} {x y : String} :
    x ∈ insertId c y ↔ x ∈ c ∨ x = y := by
  unfold insertId
  split
  · rename_i h
    constructor
    · exact Or.inl
    · rintro (hx | rfl)
      · exact hx
      · exact h
  · simp

theorem nodup_insertId {c : List String} {y : String} (h : c.Nodup) :
    (insertId c y).Nodup := by
  unfold insertId
  split
  · exact h
  · rename_i hy
    simp [List.nodup_append, h, hy]

theorem length_le_insertId {c : List String} {y : String} :
    c.length ≤ (insertId c y).length := by
  unfold insertId
  split <;> simp

theorem length_lt_insertId {c : List String} {y : String} (h : y ∉ c) :
    c.length < (insertId c y).length := by
  unfold insertId
  rw [if_neg h]
  simp

theorem mem_foldl_insertId :
    ∀ (l c : List String) (x : String), x ∈ l.foldl insertId c ↔ x ∈ c ∨ x ∈ l
  | [], c, x => by simp
  | y :: l, c, x => by
    rw [List.foldl_cons, mem_foldl_insertId l (insertId c y) x, mem_insertId]
    simp only [List.mem_cons]
    tauto

theorem nodup_foldl_insertId :
    ∀ (l c : List String), c.Nodup → (l.foldl insertId c).Nodup
  | [], _, h => h
  | y :: l, c, h => by
    rw [List.foldl_cons]
    exact nodup_foldl_insertId l _ (nodup_insertId h)

theorem length_le_foldl_insertId :
    ∀ (l c : List String), c.length ≤ (l.foldl insertId c).length
  | [], _ => le_rfl
  | y :: l, c => by
    rw [List.foldl_cons]
    exact le_trans length_le_insertId (length_le_foldl_insertId l _)

theorem length_lt_foldl_insertId :
    ∀ (l c : List String) (y : String), y ∈ l → y ∉ c →
      c.length < (l.foldl insertId c).length
  | [], _, _, hy, _ => by cases hy
  | z :: l, c, y, hy, hc => by
    rw [List.foldl_cons]
    rcases List.mem_cons.mp hy with rfl | hy'
    · exact lt_of_lt_of_le (length_lt_insertId hc) (length_le_foldl_insertId l _)
    · by_cases hz : y ∈ insertId c z
      · rcases mem_insertId.mp hz with h | rfl
        · exact absurd h hc
        · exact lt_of_lt_of_le (length_lt_insertId hc) (length_le_foldl_insertId l _)
      · exact lt_of_le_of_lt length_le_insertId (length_lt_foldl_insertId l _ y hy' hz)

/-! ### Lemmas about one round's group -/

theorem mem_eligibleIds {ts : List SubTask} {c : List String} {x : String} :
    x ∈ eligibleIds ts c ↔
      ∃ st ∈ ts, st.id = x ∧ st.id ∉ c ∧ ∀ d ∈ st.dependencies, d ∈ c := by
  simp only [eligibleIds, depsSatisfied, List.mem_map, List.mem_filter,
    Bool.and_eq_true, decide_eq_true_eq, List.all_eq_true]
  constructor
  · rintro ⟨st, ⟨hst, hnc, hdeps⟩, rfl⟩
    exact ⟨st, hst, rfl, hnc, hdeps⟩
  · rintro ⟨st, hst, rfl, hnc, hdeps⟩
    exact ⟨st, ⟨hst, hnc, hdeps⟩, rfl⟩

theorem mem_remainingIds {ts : List SubTask} {c : List String} {x : String} :
    x ∈ remainingIds ts c ↔ ∃ st ∈ ts, st.id = x ∧ st.id ∉ c := by
  simp only [remainingIds, List.mem_map, List.mem_filter, decide_eq_true_eq]
  constructor
  · rintro ⟨st, ⟨hst, hnc⟩, rfl⟩
    exact ⟨st, hst, rfl, hnc⟩
  · rintro ⟨st, hst, rfl, hnc⟩
    exact ⟨st, ⟨hst, hnc⟩, rfl⟩

theorem mem_roundGroup_cases {ts : List SubTask} {c : List String} {x : String}
    (h : x ∈ roundGroup ts c) :
    ∃ st ∈ ts, st.id = x ∧ st.id ∉ c := by
  unfold roundGroup at h
  dsimp only at h
  split at h
  · exact mem_remainingIds.mp h
  · obtain ⟨st, hst, rfl, hnc, _⟩ := mem_eligibleIds.mp h
    exact ⟨st, hst, rfl, hnc⟩

theorem roundGroup_eq_of_elig_ne_nil {ts : List SubTask} {c : List String}
    (h : eligibleIds ts c ≠ []) : roundGroup ts c = eligibleIds ts c := by
  unfold roundGroup
  simp [List.isEmpty_iff, h]

theorem roundGroup_nodup {ts : List SubTask} {c : List String}
    (hids : (subTaskIds ts).Nodup) : (roundGroup ts c).Nodup := by
  have key : ∀ p : SubTask → Bool, ((ts.filter p).map fun st => st.id).Nodup := by
    intro p
    exact hids.sublist ((List.filter_sublist ts).map fun st => st.id)
  unfold roundGroup
  dsimp only
  split
  · exact key _
  · exact key _

theorem roundGroup_ne_nil {ts : List SubTask} {c : List String}
    (h : remainingIds ts c ≠ []) : roundGroup ts c ≠ [] := by
  unfold roundGroup
  dsimp only
  split
  · exact h
  · rename_i he
    simpa [List.isEmpty_iff] using he

theorem remainingIds_ne_nil {ts : List SubTask} {c : List String}
    (hids : (subTaskIds ts).Nodup) (hlen : c.length < ts.length) :
    remainingIds ts c ≠ [] := by
  intro hnil
  have hall : ∀ st ∈ ts, st.id ∈ c := by
    intro st hst
    by_contra hnc
    have : st.id ∈ remainingIds ts c := mem_remainingIds.mpr ⟨st, hst, rfl, hnc⟩
    simp [hnil] at this
  have hsub2 : subTaskIds ts ⊆ c := by
    intro x hx
    obtain ⟨st, hst, rfl⟩ := List.mem_map.mp hx
    exact hall st hst
  have := (List.subperm_of_subset hids hsub2).length_le
  have hlen2 : (subTaskIds ts).length = ts.length := List.length_map _ _
  omega

theorem roundGroup_congr {ts : List SubTask} {c c' : List String}
    (h : ∀ x, x ∈ c ↔ x ∈ c') : roundGroup ts c = roundGroup ts c' := by
  have he : eligibleIds ts c = eligibleIds ts c' := by
    unfold eligibleIds depsSatisfied
    congr 1
    apply List.filter_congr
    intro st _
    have h1 : decide (st.id ∉ c) = decide (st.id ∉ c') := by
      simp [h st.id]
    have h2 : ∀ ds : List String, (ds.all fun dep => decide (dep ∈ c)) =
        (ds.all fun dep => decide (dep ∈ c')) := by
      intro ds
      induction ds with
      | nil => rfl
      | cons d ds ih => simp only [List.all_cons, ih, h d]
    rw [h1, h2]
  have hr : remainingIds ts c = remainingIds ts c' := by
    unfold remainingIds
    congr 1
    apply List.filter_congr
    intro st _
    simp [h st.id]
  unfold roundGroup
  rw [he, hr]

/-! ### The normal form of one `stepV2` iteration

`stepV2` pushes a list of new groups and folds their members into the
completed set; `newGroupsV2` names that list of new groups. -/

/-- The groups pushed by one iteration of the second revision's loop. -/
def newGroupsV2 (img : Bool) (ts : List SubTask) (completed : List String) :
    List (List String) :=
  let group := roundGroup ts completed
  if img ∧ 1 < group.length then
    let batchTasks := group.filter fun id => isBatchId ts id
    if 1 < batchTasks.length then
      let planningTasks := group.filter fun id => decide (id ∉ batchTasks)
      (if 0 < planningTasks.length then [planningTasks] else []) ++
        batchTasks.map fun b => [b]
    else [group]
  else [group]

theorem batch_foldl_eq :
    ∀ (batch : List String) (s : PlanState),
      batch.foldl
          (fun acc bid =>
            PlanState.mk (insertId acc.completed bid) (acc.groups ++ [[bid]])) s =
        ⟨batch.foldl insertId s.completed, s.groups ++ batch.map fun b => [b]⟩
  | [], s => by simp
  | b :: l, s => by
    rw [List.foldl_cons, batch_foldl_eq l _]
    simp [List.foldl_cons]

theorem flatten_map_singleton (l : List String) :
    (l.map fun b => ([b] : List String)).flatten = l := by
  induction l with
  | nil => rfl
  | cons b l ih => simp [ih]

theorem stepV2_eq (img : Bool) (ts : List SubTask) (s : PlanState) :
    stepV2 img ts s =
      ⟨(newGroupsV2 img ts s.completed).flatten.foldl insertId s.completed,
        s.groups ++ newGroupsV2 img ts s.completed⟩ := by
  unfold stepV2 newGroupsV2
  dsimp only
  split_ifs with h1 h2 h3
  · rw [batch_foldl_eq]
    rw [List.singleton_append, List.flatten_cons, flatten_map_singleton,
      List.foldl_append, List.append_assoc]
    simp
  · rw [batch_foldl_eq]
    rw [List.nil_append, flatten_map_singleton]
  · simp
  · simp

theorem stepV1_eq_stepV2_false (ts : List SubTask) (s : PlanState) :
    stepV1 ts s = stepV2 false ts s := by
  unfold stepV1 stepV2
  simp

theorem runPlanV1_eq_runPlanV2_false :
    ∀ (fuel : Nat) (ts : List SubTask) (s : PlanState),
      runPlanV1 fuel ts s = runPlanV2 false fuel ts s
  | 0, ts, s => rfl
  | fuel + 1, ts, s => by
    unfold runPlanV1 runPlanV2
    rw [stepV1_eq_stepV2_false]
    split
    · exact runPlanV1_eq_runPlanV2_false fuel ts _
    · rfl

theorem planning_filter_eq (ts : List SubTask) (group : List String) :
    (group.filter fun id =>
        decide (id ∉ group.filter fun id2 => isBatchId ts id2)) =
      group.filter fun id => !(isBatchId ts id) := by
  apply List.filter_congr
  intro x hx
  by_cases hxb : isBatchId ts x
  · have hm : x ∈ group.filter fun id2 => isBatchId ts id2 :=
      List.mem_filter.mpr ⟨hx, hxb⟩
    simp [hm, hxb]
  · have hm : x ∉ group.filter fun id2 => isBatchId ts id2 := by
      intro hmem
      exact hxb (List.mem_filter.mp hmem).2
    simp [hm, hxb]

theorem newGroupsV2_flatten_perm (img : Bool) (ts : List SubTask) (c : List String) :
    List.Perm (newGroupsV2 img ts c).flatten (roundGroup ts c) := by
  unfold newGroupsV2
  dsimp only
  split_ifs with h1 h2 h3
  · rw [List.singleton_append, List.flatten_cons, flatten_map_singleton,
      planning_filter_eq]
    exact List.Perm.trans List.perm_append_comm
      (List.filter_append_perm (fun id => isBatchId ts id) (roundGroup ts c))
  · rw [List.nil_append, flatten_map_singleton]
    have h0 : (roundGroup ts c).filter (fun id =>
        decide (id ∉ (roundGroup ts c).filter fun id2 => isBatchId ts id2)) = [] := by
      have := Nat.eq_zero_of_not_pos h3
      exact List.eq_nil_of_length_eq_zero this
    rw [planning_filter_eq] at h0
    have hall : ∀ a ∈ roundGroup ts c, isBatchId ts a := by
      intro a ha
      have := List.filter_eq_nil_iff.mp h0 a ha
      simpa using this
    rw [List.filter_eq_self.mpr hall]
  · simp
  · simp

theorem newGroupsV2_ne_nil {img : Bool} {ts : List SubTask} {c : List String}
    (h : roundGroup ts c ≠ []) : ∀ g ∈ newGroupsV2 img ts c, g ≠ [] := by
  unfold newGroupsV2
  dsimp only
  split_ifs with h1 h2 h3
  · intro g hg
    rcases List.mem_append.mp hg with hg1 | hg2
    · have : g = _ := List.mem_singleton.mp hg1
      subst this
      intro hnil
      rw [hnil] at h3
      simp at h3
    · obtain ⟨b, _, rfl⟩ := List.mem_map.mp hg2
      simp
  · intro g hg
    rw [List.nil_append] at hg
    obtain ⟨b, _, rfl⟩ := List.mem_map.mp hg
    simp
  · intro g hg
    rw [List.mem_singleton.mp hg]
    exact h
  · intro g hg
    rw [List.mem_singleton.mp hg]
    exact h

/-! ### Invariants of the grouping loop -/

theorem mem_roundGroup_ids {ts : List SubTask} {c : List String} {x : String}
    (h : x ∈ roundGroup ts c) : x ∈ subTaskIds ts := by
  obtain ⟨st, hst, rfl, _⟩ := mem_roundGroup_cases h
  exact List.mem_map.mpr ⟨st, hst, rfl⟩

/-- Invariant of the grouping loop that holds for every input: the completed
set is exactly the set of already-grouped ids, is duplicate-free, and contains
only input ids. -/
structure BaseInv (ts : List SubTask) (s : PlanState) : Prop where
  mem : ∀ x, x ∈ s.completed ↔ x ∈ s.groups.flatten
  nodupC : s.completed.Nodup
  subIds : ∀ x ∈ s.completed, x ∈ subTaskIds ts

theorem baseInv_init (ts : List SubTask) : BaseInv ts ⟨[], []⟩ := by
  constructor <;> simp

theorem baseInv_step {img : Bool} {ts : List SubTask} {s : PlanState}
    (h : BaseInv ts s) : BaseInv ts (stepV2 img ts s) := by
  rw [stepV2_eq]
  constructor
  · intro x
    rw [mem_foldl_insertId]
    dsimp only
    rw [List.flatten_append, List.mem_append, h.mem x]
  · exact nodup_foldl_insertId _ _ h.nodupC
  · intro x hx
    rcases (mem_foldl_insertId _ _ x).mp hx with hc | hn
    · exact h.subIds x hc
    · exact mem_roundGroup_ids ((newGroupsV2_flatten_perm img ts s.completed).subset hn)

theorem exit_nodup {ts : List SubTask} {s : PlanState} (h : BaseInv ts s)
    (hlen : ts.length ≤ s.completed.length) : (subTaskIds ts).Nodup := by
  have hsub : s.completed ⊆ subTaskIds ts := fun x hx => h.subIds x hx
  have hsp := List.subperm_of_subset h.nodupC hsub
  have h1 : s.completed.length ≤ (subTaskIds ts).length := hsp.length_le
  have h2 : (subTaskIds ts).length = ts.length := List.length_map _ _
  exact (hsp.perm_of_length_le (by omega)).nodup h.nodupC

theorem runPlanV2_some_nodup {img : Bool} {ts : List SubTask} :
    ∀ (fuel : Nat) (s : PlanState) (gs : List (List String)), BaseInv ts s →
      runPlanV2 img fuel ts s = some gs → (subTaskIds ts).Nodup
  | 0, s, gs, h, hrun => by
    unfold runPlanV2 at hrun
    split at hrun
    · cases hrun
    · rename_i hc
      exact exit_nodup h (Nat.le_of_not_lt hc)
  | fuel + 1, s, gs, h, hrun => by
    unfold runPlanV2 at hrun
    split at hrun
    · exact runPlanV2_some_nodup fuel _ gs (baseInv_step h) hrun
    · rename_i hc
      exact exit_nodup h (Nat.le_of_not_lt hc)

/-- Invariant available once the input ids are duplicate-free: groups are
pairwise disjoint, duplicate-free and non-empty. -/
structure FullInv (ts : List SubTask) (s : PlanState) : Prop where
  base : BaseInv ts s
  flatNodup : s.groups.flatten.Nodup
  nonNil : ∀ g ∈ s.groups, g ≠ ([] : List String)

theorem fullInv_init (ts : List SubTask) : FullInv ts ⟨[], []⟩ := by
  refine ⟨baseInv_init ts, by simp, by simp⟩

theorem fullInv_step {img : Bool} {ts : List SubTask} {s : PlanState}
    (hids : (subTaskIds ts).Nodup) (h : FullInv ts s)
    (hcond : s.completed.length < ts.length) : FullInv ts (stepV2 img ts s) := by
  have hrem : remainingIds ts s.completed ≠ [] := remainingIds_ne_nil hids hcond
  have hrg : roundGroup ts s.completed ≠ [] := roundGroup_ne_nil hrem
  have hperm := newGroupsV2_flatten_perm img ts s.completed
  refine ⟨baseInv_step h.base, ?_, ?_⟩
  · rw [stepV2_eq]
    dsimp only
    rw [List.flatten_append, List.nodup_append]
    refine ⟨h.flatNodup, hperm.symm.nodup (roundGroup_nodup hids), ?_⟩
    intro x hx hx'
    have hxc : x ∈ s.completed := (h.base.mem x).mpr hx
    have hxg : x ∈ roundGroup ts s.completed := hperm.subset hx'
    obtain ⟨st, _, rfl, hnc⟩ := mem_roundGroup_cases hxg
    exact hnc hxc
  · rw [stepV2_eq]
    dsimp only
    intro g hg
    rcases List.mem_append.mp hg with hold | hnew
    · exact h.nonNil g hold
    · exact newGroupsV2_ne_nil hrg g hnew

theorem exit_flatten_perm {ts : List SubTask} {s : PlanState} (h : FullInv ts s)
    (hlen : ts.length ≤ s.completed.length) :
    List.Perm s.groups.flatten (subTaskIds ts) := by
  have hperm1 : List.Perm s.completed s.groups.flatten :=
    (List.perm_ext_iff_of_nodup h.base.nodupC h.flatNodup).mpr h.base.mem
  have hsp := List.subperm_of_subset h.base.nodupC fun x hx => h.base.subIds x hx
  have h1 : s.completed.length ≤ (subTaskIds ts).length := hsp.length_le
  have h2 : (subTaskIds ts).length = ts.length := List.length_map _ _
  exact hperm1.symm.trans (hsp.perm_of_length_le (by omega))

theorem runPlanV2_some_fullInv {img : Bool} {ts : List SubTask}
    (hids : (subTaskIds ts).Nodup) :
    ∀ (fuel : Nat) (s : PlanState) (gs : List (List String)), FullInv ts s →
      runPlanV2 img fuel ts s = some gs →
      gs.flatten.Nodup ∧ (∀ g ∈ gs, g ≠ []) ∧ List.Perm gs.flatten (subTaskIds ts)
  | 0, s, gs, h, hrun => by
    unfold runPlanV2 at hrun
    split at hrun
    · cases hrun
    · rename_i hc
      cases hrun
      exact ⟨h.flatNodup, h.nonNil, exit_flatten_perm h (Nat.le_of_not_lt hc)⟩
  | fuel + 1, s, gs, h, hrun => by
    unfold runPlanV2 at hrun
    split at hrun
    · rename_i hc
      exact runPlanV2_some_fullInv hids fuel _ gs (fullInv_step hids h hc) hrun
    · rename_i hc
      cases hrun
      exact ⟨h.flatNodup, h.nonNil, exit_flatten_perm h (Nat.le_of_not_lt hc)⟩

theorem runPlanV2_terminates {img : Bool} {ts : List SubTask}
    (hids : (subTaskIds ts).Nodup) :
    ∀ (fuel : Nat) (s : PlanState), FullInv ts s →
      ts.length ≤ s.completed.length + fuel →
      ∃ gs, runPlanV2 img fuel ts s = some gs
  | 0, s, h, hlen => by
    unfold runPlanV2
    rw [if_neg (by omega)]
    exact ⟨s.groups, rfl⟩
  | fuel + 1, s, h, hlen => by
    unfold runPlanV2
    by_cases hc : s.completed.length < ts.length
    · rw [if_pos hc]
      have hrem : remainingIds ts s.completed ≠ [] := remainingIds_ne_nil hids hc
      have hrg : roundGroup ts s.completed ≠ [] := roundGroup_ne_nil hrem
      obtain ⟨y, hy⟩ := List.exists_mem_of_ne_nil _ hrg
      have hyf : y ∈ (newGroupsV2 img ts s.completed).flatten :=
        (newGroupsV2_flatten_perm img ts s.completed).symm.subset hy
      obtain ⟨st, _, rfl, hnc⟩ := mem_roundGroup_cases hy
      have hgrow : s.completed.length <
          ((newGroupsV2 img ts s.completed).flatten.foldl insertId s.completed).length :=
        length_lt_foldl_insertId _ _ _ hyf hnc
      have hstep : (stepV2 img ts s).completed.length > s.completed.length := by
        rw [stepV2_eq]
        exact hgrow
      exact runPlanV2_terminates hids fuel _ (fullInv_step hids h hc) (by omega)
    · rw [if_neg hc]
      exact ⟨s.groups, rfl⟩

/-! ### Dependency ordering under acyclicity

Acyclicity of the dependency graph restricted to the input ids is expressed by
a ranking function: every dependency edge between input ids strictly decreases
the rank.  For finite graphs this is the standard equivalent of acyclicity. -/

/-- `rank` witnesses acyclicity of the dependency graph restricted to ids
present in the input. -/
def RankOK (ts : List SubTask) (rank : String → Nat) : Prop :=
  ∀ st ∈ ts, ∀ d ∈ st.dependencies, d ∈ subTaskIds ts → rank d < rank st.id

/-- Every dependency references an id present in the input. -/
def NoDangling (ts : List SubTask) : Prop :=
  ∀ st ∈ ts, ∀ d ∈ st.dependencies, d ∈ subTaskIds ts

theorem eligibleIds_ne_nil {ts : List SubTask} {c : List String} {rank : String → Nat}
    (hrank : RankOK ts rank) (hnd : NoDangling ts)
    (hrem : remainingIds ts c ≠ []) : eligibleIds ts c ≠ [] := by
  obtain ⟨x, hx⟩ := List.exists_mem_of_ne_nil _ hrem
  obtain ⟨st0, hst0, rfl, hnc0⟩ := mem_remainingIds.mp hx
  have aux : ∀ n (st : SubTask), st ∈ ts → rank st.id < n → st.id ∉ c →
      eligibleIds ts c ≠ [] := by
    intro n
    induction n with
    | zero => intro st _ h _; omega
    | succ n ih =>
      intro st hst hr hnc
      by_cases hds : ∀ d ∈ st.dependencies, d ∈ c
      · exact List.ne_nil_of_mem (mem_eligibleIds.mpr ⟨st, hst, rfl, hnc, hds⟩)
      · push_neg at hds
        obtain ⟨d, hd, hdc⟩ := hds
        have hdid : d ∈ subTaskIds ts := hnd st hst d hd
        obtain ⟨std, hstd, hdeq⟩ := List.mem_map.mp hdid
        have hlt : rank d < rank st.id := hrank st hst d hd hdid
        refine ih std hstd ?_ ?_
        · rw [hdeq]; omega
        · rw [hdeq]; exact hdc
  exact aux (rank st0.id + 1) st0 hst0 (by omega) hnc0

/-- Every dependency of every member of a group already lies in the union of
the strictly earlier groups. -/
def SortedL (ts : List SubTask) (gs : List (List String)) : Prop :=
  ∀ pre g post, gs = pre ++ g :: post → ∀ x ∈ g, ∀ st ∈ ts, st.id = x →
    ∀ d ∈ st.dependencies, d ∈ pre.flatten

theorem sortedL_nil (ts : List SubTask) : SortedL ts [] := by
  intro pre g post h
  exact absurd h (by simp)

theorem sortedL_append {ts : List SubTask} {gs ngs : List (List String)}
    (h : SortedL ts gs)
    (hnew : ∀ x ∈ ngs.flatten, ∀ st ∈ ts, st.id = x →
      ∀ d ∈ st.dependencies, d ∈ gs.flatten) :
    SortedL ts (gs ++ ngs) := by
  intro pre g post heq x hx st hst hid d hd
  rcases List.append_eq_append_iff.mp heq with ⟨a, ha1, ha2⟩ | ⟨c, hc1, hc2⟩
  · -- the decomposed group comes from `ngs`
    have hxn : x ∈ ngs.flatten := by
      rw [ha2]
      exact List.mem_flatten.mpr ⟨g, by simp, hx⟩
    have hdg : d ∈ gs.flatten := hnew x hxn st hst hid d hd
    rw [ha1, List.flatten_append, List.mem_append]
    exact Or.inl hdg
  · cases c with
    | nil =>
      -- `pre = gs` and the group heads `ngs`
      rw [List.append_nil] at hc1
      rw [List.nil_append] at hc2
      have hxn : x ∈ ngs.flatten := by
        rw [← hc2]
        exact List.mem_flatten.mpr ⟨g, by simp, hx⟩
      have hdg : d ∈ gs.flatten := hnew x hxn st hst hid d hd
      rw [hc1] at hdg
      exact hdg
    | cons g' c' =>
      -- the decomposed group comes from `gs`
      obtain ⟨rfl, hpost⟩ : g = g' ∧ post = c' ++ ngs := by
        have := hc2
        rw [List.cons_append] at this
        exact ⟨by injection this, by injection this⟩
      exact h pre g c' hc1 x hx st hst hid d hd

/-- Loop invariant for the ordering property. -/
structure OrdInv (ts : List SubTask) (s : PlanState) : Prop where
  full : FullInv ts s
  sorted : SortedL ts s.groups

theorem ordInv_init (ts : List SubTask) : OrdInv ts ⟨[], []⟩ :=
  ⟨fullInv_init ts, sortedL_nil ts⟩

theorem ordInv_step {img : Bool} {ts : List SubTask} {s : PlanState}
    {rank : String → Nat} (hids : (subTaskIds ts).Nodup) (hrank : RankOK ts rank)
    (hnd : NoDangling ts) (h : OrdInv ts s)
    (hcond : s.completed.length < ts.length) : OrdInv ts (stepV2 img ts s) := by
  refine ⟨fullInv_step hids h.full hcond, ?_⟩
  rw [stepV2_eq]
  dsimp only
  apply sortedL_append h.sorted
  intro x hx st hst hid d hd
  have hrem : remainingIds ts s.completed ≠ [] := remainingIds_ne_nil hids hcond
  have helig : eligibleIds ts s.completed ≠ [] := eligibleIds_ne_nil hrank hnd hrem
  have hxg : x ∈ roundGroup ts s.completed :=
    (newGroupsV2_flatten_perm img ts s.completed).subset hx
  rw [roundGroup_eq_of_elig_ne_nil helig] at hxg
  obtain ⟨st', hst', hid', _, hds'⟩ := mem_eligibleIds.mp hxg
  have hsame : st' = st :=
    List.inj_on_of_nodup_map hids hst' hst (by rw [hid', hid])
  subst hsame
  exact (h.full.base.mem d).mp (hds' d hd)

theorem runPlanV2_some_sorted {img : Bool} {ts : List SubTask} {rank : String → Nat}
    (hids : (subTaskIds ts).Nodup) (hrank : RankOK ts rank) (hnd : NoDangling ts) :
    ∀ (fuel : Nat) (s : PlanState) (gs : List (List String)), OrdInv ts s →
      runPlanV2 img fuel ts s = some gs → SortedL ts gs
  | 0, s, gs, h, hrun => by
    unfold runPlanV2 at hrun
    split at hrun
    · cases hrun
    · cases hrun
      exact h.sorted
  | fuel + 1, s, gs, h, hrun => by
    unfold runPlanV2 at hrun
    split at hrun
    · rename_i hc
      exact runPlanV2_some_sorted hids hrank hnd fuel _ gs
        (ordInv_step hids hrank hnd h hc) hrun
    · cases hrun
      exact h.sorted

/-! ### Exact round characterization for the first revision -/

theorem snoc_cases {α : Type} {gs pre post : List α} {gNew g : α}
    (h : gs ++ [gNew] = pre ++ g :: post) :
    (pre = gs ∧ g = gNew ∧ post = []) ∨
      ∃ post0, gs = pre ++ g :: post0 ∧ post = post0 ++ [gNew] := by
  rcases List.append_eq_append_iff.mp h with ⟨a, ha1, ha2⟩ | ⟨c, hc1, hc2⟩
  · cases a with
    | nil =>
      left
      rw [List.append_nil] at ha1
      rw [List.nil_append] at ha2
      have h1 : gNew = g ∧ [] = post := by
        constructor
        · injection ha2
        · injection ha2
      exact ⟨ha1, h1.1.symm, h1.2.symm⟩
    | cons y a' =>
      exfalso
      have : ([gNew] : List α).length = (y :: (a' ++ g :: post)).length := by
        rw [ha2, List.cons_append]
      simp at this
  · cases c with
    | nil =>
      left
      rw [List.append_nil] at hc1
      have h1 : g = gNew ∧ post = [] := by
        rw [List.nil_append] at hc2
        constructor
        · injection hc2
        · injection hc2
      exact ⟨hc1.symm, h1.1, h1.2⟩
    | cons g' c' =>
      right
      rw [List.cons_append] at hc2
      have hg : g = g' := by injection hc2
      have hpost : post = c' ++ [gNew] := by injection hc2
      subst hg
      exact ⟨c', hc1, hpost⟩

/-- Loop invariant: each emitted group is exactly `roundGroup` of the union of
the earlier groups. -/
structure RoundInv (ts : List SubTask) (s : PlanState) : Prop where
  base : BaseInv ts s
  rounds : ∀ pre g post, s.groups = pre ++ g :: post → g = roundGroup ts pre.flatten

theorem roundInv_init (ts : List SubTask) : RoundInv ts ⟨[], []⟩ := by
  refine ⟨baseInv_init ts, ?_⟩
  intro pre g post h
  exact absurd h (by simp)

theorem roundInv_step {ts : List SubTask} {s : PlanState} (h : RoundInv ts s) :
    RoundInv ts (stepV1 ts s) := by
  constructor
  · rw [stepV1_eq_stepV2_false]
    exact baseInv_step h.base
  · intro pre g post heq
    unfold stepV1 at heq
    dsimp only at heq
    rcases snoc_cases heq with ⟨rfl, rfl, rfl⟩ | ⟨post0, hgs, _⟩
    · exact roundGroup_congr fun x => h.base.mem x
    · exact h.rounds pre g post0 hgs

theorem runPlanV1_some_rounds {ts : List SubTask} :
    ∀ (fuel : Nat) (s : PlanState) (gs : List (List String)), RoundInv ts s →
      runPlanV1 fuel ts s = some gs →
      ∀ pre g post, gs = pre ++ g :: post → g = roundGroup ts pre.flatten
  | 0, s, gs, h, hrun => by
    unfold runPlanV1 at hrun
    split at hrun
    · cases hrun
    · cases hrun
      exact h.rounds
  | fuel + 1, s, gs, h, hrun => by
    unfold runPlanV1 at hrun
    split at hrun
    · exact runPlanV1_some_rounds fuel _ gs (roundInv_step h) hrun
    · cases hrun
      exact h.rounds

/-! ### Claim-side predicates for the grouper -/

/-- The grouping-correctness property of claim C1: every subtask appears in a
group strictly after every group containing one of its dependencies (each
dependency lies in the union of the strictly earlier groups and in no later
group). -/
def OrderedPlan (ts : List SubTask) (gs : List (List String)) : Prop :=
  ∀ st ∈ ts, ∀ d ∈ st.dependencies, ∀ pre g post, gs = pre ++ g :: post →
    st.id ∈ g → d ∈ pre.flatten ∧ d ∉ g ∧ d ∉ post.flatten

/-- The round-exactness property of claim C3: each emitted group is exactly
the (input-ordered) list of subtasks eligible given the earlier groups, or all
remaining subtasks when none is eligible. -/
def RoundExact (ts : List SubTask) (gs : List (List String)) : Prop :=
  ∀ pre g post, gs = pre ++ g :: post →
    (eligibleIds ts pre.flatten ≠ [] → g = eligibleIds ts pre.flatten) ∧
    (eligibleIds ts pre.flatten = [] → g = remainingIds ts pre.flatten)

/-- Remove from every dependency set the ids not present in the input (the
reading of claim C4: an unknown id behaves as if absent). -/
def stripUnknown (ts : List SubTask) : List SubTask :=
  ts.map fun st =>
    { st with dependencies := st.dependencies.filter fun d => decide (d ∈ subTaskIds ts) }

theorem flatten_decomp_nodup {gs pre post : List (List String)} {g : List String}
    (hn : gs.flatten.Nodup) (heq : gs = pre ++ g :: post) {d : String}
    (hd : d ∈ pre.flatten) : d ∉ g ∧ d ∉ post.flatten := by
  subst heq
  rw [List.flatten_append, List.flatten_cons, List.nodup_append] at hn
  have hdisj := hn.2.2 hd
  constructor
  · intro hg
    exact hdisj (List.mem_append.mpr (Or.inl hg))
  · intro hp
    exact hdisj (List.mem_append.mpr (Or.inr hp))

theorem length_le_flatten {gs : List (List String)} (h : ∀ g ∈ gs, g ≠ []) :
    gs.length ≤ gs.flatten.length := by
  induction gs with
  | nil => simp
  | cons g gs ih =>
    rw [List.flatten_cons, List.length_append, List.length_cons]
    have hg : g ≠ [] := h g (by simp)
    have h1 : 1 ≤ g.length := by
      cases g with
      | nil => exact absurd rfl hg
      | cons a l => simp
    have h2 := ih fun g' hg' => h g' (by simp [hg'])
    omega

/-- The grouper's ordering guarantee for either revision's loop, for runs that
finish, on acyclic inputs with no dangling dependency ids. -/
theorem runPlanV2_orderedPlan {img : Bool} {ts : List SubTask} {fuel : Nat}
    {gs : List (List String)} {rank : String → Nat}
    (hrun : runPlanV2 img fuel ts ⟨[], []⟩ = some gs)
    (hrank : RankOK ts rank) (hnd : NoDangling ts) : OrderedPlan ts gs := by
  have hids : (subTaskIds ts).Nodup :=
    runPlanV2_some_nodup fuel _ gs (baseInv_init ts) hrun
  have hsorted : SortedL ts gs :=
    runPlanV2_some_sorted hids hrank hnd fuel _ gs (ordInv_init ts) hrun
  have hfull := runPlanV2_some_fullInv hids fuel _ gs (fullInv_init ts) hrun
  intro st hst d hd pre g post heq hmem
  have hdpre : d ∈ pre.flatten := hsorted pre g post heq st.id hmem st hst rfl d hd
  have hrest := flatten_decomp_nodup hfull.1 heq hdpre
  exact ⟨hdpre, hrest.1, hrest.2⟩

/-! ### Concrete inputs used by counterexamples and witnesses -/

/-- A plain subtask record with the given id and dependencies. -/
def sampleSub (id : String) (deps : List String) : SubTask :=
  { id := id, description := "step " ++ id, dependencies := deps,
    status := .pending, input := { parentTask := "t", step := 1 }, createdAt := 0 }

/-- A batch-generation subtask (as produced by the second revision's
image-generation decomposition). -/
def sampleBatchSub (id : String) (descr : String) : SubTask :=
  { id := id, description := descr, dependencies := [], status := .pending,
    input := { parentTask := "t", step := 1, action := some "generate_batch" },
    createdAt := 0 }

/-- Acyclic input (restricted to present ids) with a dangling dependency:
`A` depends on the unknown id `G`, `B` depends on `A`. -/
def cexTsC1 : List SubTask := [sampleSub "A" ["G"], sampleSub "B" ["A"]]

/-- Two subtasks sharing one id. -/
def dupTs : List SubTask := [sampleSub "A" [], sampleSub "A" []]

/-- Two independent batch-generation subtasks (image-generation input). -/
def cexTsC3 : List SubTask :=
  [sampleBatchSub "B1" "Generate storyboard images 1-10 (batch 1/2)",
    sampleBatchSub "B2" "Generate storyboard images 11-20 (batch 2/2)"]

/-- `B` has a dependency on an id absent from the input. -/
def cexTsC4 : List SubTask := [sampleSub "A" [], sampleSub "B" ["ghost"]]

/-- A three-subtask acyclic input with no dangling ids. -/
def diamondTs : List SubTask :=
  [sampleSub "A" [], sampleSub "B" [], sampleSub "C" ["A", "B"]]

instance (ts : List SubTask) (rank : String → Nat) : Decidable (RankOK ts rank) := by
  unfold RankOK
  infer_instance

instance (ts : List SubTask) : Decidable (NoDangling ts) := by
  unfold NoDangling
  infer_instance

/-! ### Supporting divergence lemma for duplicate ids -/

theorem dupTs_baseInv_none {img : Bool} :
    ∀ (fuel : Nat) (s : PlanState), BaseInv dupTs s →
      runPlanV2 img fuel dupTs s = none := by
  have hlen : ∀ s : PlanState, BaseInv dupTs s → s.completed.length < dupTs.length := by
    intro s h
    have hsub : ∀ x ∈ s.completed, x = "A" := by
      intro x hx
      have := h.subIds x hx
      simp [dupTs, subTaskIds, sampleSub] at this
      tauto
    have : s.completed.length ≤ 1 := by
      cases hc : s.completed with
      | nil => simp
      | cons a l =>
        cases hl : l with
        | nil => simp
        | cons b l' =>
          exfalso
          have ha : a = "A" := hsub a (by simp [hc])
          have hb : b = "A" := hsub b (by simp [hc, hl])
          have := h.nodupC
          rw [hc, hl] at this
          simp [ha, hb] at this
    simp [dupTs]
    omega
  intro fuel
  induction fuel with
  | zero =>
    intro s h
    unfold runPlanV2
    rw [if_pos (hlen s h)]
  | succ fuel ih =>
    intro s h
    unfold runPlanV2
    rw [if_pos (hlen s h)]
    exact ih _ (baseInv_step h)

theorem dupTs_diverges (fuel : Nat) :
    createExecutionPlanV1 fuel dupTs = none ∧ createExecutionPlanV2 fuel dupTs = none := by
  constructor
  · unfold createExecutionPlanV1
    rw [runPlanV1_eq_runPlanV2_false, dupTs_baseInv_none fuel ⟨[], []⟩ (baseInv_init _)]
    rfl
  · unfold createExecutionPlanV2
    dsimp only
    rw [dupTs_baseInv_none fuel ⟨[], []⟩ (baseInv_init _)]
    rfl

/-! ### The grouper claims -/

/-- **C1** — counterexample to the claim as stated.  The input `cexTsC1` has
an acyclic dependency graph when restricted to the ids present in the input
(witnessed by a ranking function), yet both revisions of
`createExecutionPlan` put `B` in the same group as its dependency `A`:
a dependency on the unknown id `G` is never "satisfied", so the first round
finds no eligible subtask and the cycle-break fallback lumps `A` and `B`
together. -/
theorem C1_counterexample :
    (∃ rank : String → Nat, RankOK cexTsC1 rank) ∧
    (createExecutionPlanV1 2 cexTsC1).map ExecutionPlan.parallelGroups =
      some [["A", "B"]] ∧
    (createExecutionPlanV2 2 cexTsC1).map ExecutionPlan.parallelGroups =
      some [["A", "B"]] ∧
    ¬ OrderedPlan cexTsC1 [["A", "B"]] := by
  refine ⟨⟨fun s => if s = "B" then 1 else 0, by decide⟩, by decide, by decide, ?_⟩
  intro h
  have hB := h (sampleSub "B" ["A"]) (by decide) "A" (by decide) [] ["A", "B"] []
    rfl (by decide)
  exact absurd hB.1 (by decide)

/-- **C1** (amended): for every input whose dependency graph is acyclic
(ranking function) **and** whose dependencies all reference ids present in
the input, every completed run of either revision of `createExecutionPlan`
places each subtask in a group strictly after every group containing one of
its dependencies. -/
theorem C1_grouping_order :
    (∀ (ts : List SubTask) (fuel : Nat) (plan : ExecutionPlan) (rank : String → Nat),
      createExecutionPlanV1 fuel ts = some plan → RankOK ts rank → NoDangling ts →
      OrderedPlan ts plan.parallelGroups) ∧
    (∀ (ts : List SubTask) (fuel : Nat) (plan : ExecutionPlan) (rank : String → Nat),
      createExecutionPlanV2 fuel ts = some plan → RankOK ts rank → NoDangling ts →
      OrderedPlan ts plan.parallelGroups) := by
  constructor
  · intro ts fuel plan rank hplan hrank hnd
    unfold createExecutionPlanV1 at hplan
    rw [Option.map_eq_some'] at hplan
    obtain ⟨gs, hrun, hmk⟩ := hplan
    rw [runPlanV1_eq_runPlanV2_false] at hrun
    cases hmk
    exact runPlanV2_orderedPlan hrun hrank hnd
  · intro ts fuel plan rank hplan hrank hnd
    unfold createExecutionPlanV2 at hplan
    rw [Option.map_eq_some'] at hplan
    obtain ⟨gs, hrun, hmk⟩ := hplan
    cases hmk
    exact runPlanV2_orderedPlan hrun hrank hnd

/-- **C1** — witness: the amended theorem applied to a concrete acyclic
input with no unknown ids. -/
theorem C1_witness :
    createExecutionPlanV1 3 diamondTs =
      some ⟨[["A", "B"], ["C"]], [("A", []), ("B", []), ("C", ["A", "B"])], 15⟩ ∧
    OrderedPlan diamondTs [["A", "B"], ["C"]] := by
  refine ⟨by decide, ?_⟩
  exact C1_grouping_order.1 diamondTs 3
    ⟨[["A", "B"], ["C"]], [("A", []), ("B", []), ("C", ["A", "B"])], 15⟩
    (fun s => if s = "C" then 1 else 0) (by decide) (by decide) (by decide)

/-- **C2** — counterexample to the claim as stated: on an input with two
subtasks sharing one id, both revisions of `createExecutionPlan` never
terminate.  After the first round the loop body leaves the completed set
unchanged while appending an empty group, and the loop condition still
holds, so the `while` loop spins forever (`dupTs_diverges` shows `none` for
every fuel). -/
theorem C2_counterexample :
    createExecutionPlanV1 10 dupTs = none ∧
    createExecutionPlanV2 10 dupTs = none ∧
    stepV1 dupTs (stepV1 dupTs ⟨[], []⟩) =
      ⟨(stepV1 dupTs ⟨[], []⟩).completed, (stepV1 dupTs ⟨[], []⟩).groups ++ [[]]⟩ ∧
    (stepV1 dupTs ⟨[], []⟩).completed.length < dupTs.length := by decide

/-- **C2** (amended): for every input sequence of subtasks with pairwise
distinct ids — including cyclic graphs and unknown dependency ids — both
revisions of `createExecutionPlan` terminate within `|subtasks|` rounds and
return at most `|subtasks|` groups, each non-empty, with every subtask id
occurring exactly once across the groups. -/
theorem C2_termination :
    (∀ ts : List SubTask, (subTaskIds ts).Nodup →
      ∃ plan, createExecutionPlanV1 ts.length ts = some plan ∧
        plan.parallelGroups.length ≤ ts.length ∧
        (∀ g ∈ plan.parallelGroups, g ≠ []) ∧
        ∀ st ∈ ts, plan.parallelGroups.flatten.count st.id = 1) ∧
    (∀ ts : List SubTask, (subTaskIds ts).Nodup →
      ∃ plan, createExecutionPlanV2 ts.length ts = some plan ∧
        plan.parallelGroups.length ≤ ts.length ∧
        (∀ g ∈ plan.parallelGroups, g ≠ []) ∧
        ∀ st ∈ ts, plan.parallelGroups.flatten.count st.id = 1) := by
  have main : ∀ (img : Bool) (ts : List SubTask), (subTaskIds ts).Nodup →
      ∃ gs, runPlanV2 img ts.length ts ⟨[], []⟩ = some gs ∧
        gs.length ≤ ts.length ∧ (∀ g ∈ gs, g ≠ []) ∧
        ∀ st ∈ ts, gs.flatten.count st.id = 1 := by
    intro img ts hids
    obtain ⟨gs, hrun⟩ :=
      runPlanV2_terminates hids ts.length ⟨[], []⟩ (fullInv_init ts) (by simp)
    have props := runPlanV2_some_fullInv hids ts.length _ gs (fullInv_init ts) hrun
    refine ⟨gs, hrun, ?_, props.2.1, ?_⟩
    · have h1 := length_le_flatten props.2.1
      have h2 := props.2.2.length_eq
      have h3 : (subTaskIds ts).length = ts.length := List.length_map _ _
      omega
    · intro st hst
      have hm : st.id ∈ subTaskIds ts := List.mem_map.mpr ⟨st, hst, rfl⟩
      rw [props.2.2.count_eq]
      exact List.count_eq_one_of_mem hids hm
  constructor
  · intro ts hids
    obtain ⟨gs, hrun, h1, h2, h3⟩ := main false ts hids
    refine ⟨⟨gs, ts.map fun st => (st.id, st.dependencies), ts.length * 5⟩, ?_, h1, h2, h3⟩
    unfold createExecutionPlanV1
    rw [runPlanV1_eq_runPlanV2_false, hrun]
    rfl
  · intro ts hids
    obtain ⟨gs, hrun, h1, h2, h3⟩ := main (imageDetect ts) ts hids
    refine ⟨⟨gs, ts.map fun st => (st.id, st.dependencies),
      ts.length * (if imageDetect ts then 15 else 5)⟩, ?_, h1, h2, h3⟩
    unfold createExecutionPlanV2
    dsimp only
    rw [hrun]
    rfl

/-- **C2** — witness: the amended theorem applied to a concrete input. -/
theorem C2_witness :
    (subTaskIds diamondTs).Nodup ∧
    ∃ plan, createExecutionPlanV1 diamondTs.length diamondTs = some plan ∧
      plan.parallelGroups.length ≤ diamondTs.length ∧
      (∀ g ∈ plan.parallelGroups, g ≠ []) ∧
      ∀ st ∈ diamondTs, plan.parallelGroups.flatten.count st.id = 1 :=
  ⟨by decide, C2_termination.1 diamondTs (by decide)⟩

/-- **C3** — counterexample to the claim as stated: on an image-generation
input (two batch subtasks, both eligible in the first round) the second
revision of `createExecutionPlan` does not emit one group with all eligible
subtasks; it splits them into singleton groups. -/
theorem C3_counterexample :
    imageDetect cexTsC3 = true ∧
    (createExecutionPlanV2 2 cexTsC3).map ExecutionPlan.parallelGroups =
      some [["B1"], ["B2"]] ∧
    eligibleIds cexTsC3 [] = ["B1", "B2"] ∧
    ¬ RoundExact cexTsC3 [["B1"], ["B2"]] := by
  refine ⟨by decide, by decide, by decide, ?_⟩
  intro h
  have hx := (h [] ["B1"] [["B2"]] rfl).1 (by decide)
  exact absurd hx (by decide)

/-- **C3** (amended): the round-exactness property holds unconditionally for
the first revision, and for the second revision on every input not detected
as an image-generation task; on image-generation inputs the second revision
instead splits a round with more than one batch subtask into the non-batch
ids followed by singleton batch groups. -/
theorem C3_round_exact :
    (∀ (ts : List SubTask) (fuel : Nat) (plan : ExecutionPlan),
      createExecutionPlanV1 fuel ts = some plan → RoundExact ts plan.parallelGroups) ∧
    (∀ (ts : List SubTask) (fuel : Nat) (plan : ExecutionPlan),
      imageDetect ts = false → createExecutionPlanV2 fuel ts = some plan →
      RoundExact ts plan.parallelGroups) := by
  have main : ∀ (ts : List SubTask) (fuel : Nat) (gs : List (List String)),
      runPlanV1 fuel ts ⟨[], []⟩ = some gs → RoundExact ts gs := by
    intro ts fuel gs hrun pre g post heq
    have hg := runPlanV1_some_rounds fuel _ gs (roundInv_init ts) hrun pre g post heq
    constructor
    · intro hne
      exact hg.trans (roundGroup_eq_of_elig_ne_nil hne)
    · intro hnil
      rw [hg]
      unfold roundGroup
      rw [hnil]
      simp
  constructor
  · intro ts fuel plan hplan
    unfold createExecutionPlanV1 at hplan
    rw [Option.map_eq_some'] at hplan
    obtain ⟨gs, hrun, hmk⟩ := hplan
    cases hmk
    exact main ts fuel gs hrun
  · intro ts fuel plan himg hplan
    unfold createExecutionPlanV2 at hplan
    rw [himg] at hplan
    rw [Option.map_eq_some'] at hplan
    obtain ⟨gs, hrun, hmk⟩ := hplan
    rw [← runPlanV1_eq_runPlanV2_false] at hrun
    cases hmk
    exact main ts fuel gs hrun

/-- **C3** — witness: the amended theorem applied to a concrete input. -/
theorem C3_witness :
    createExecutionPlanV1 3 diamondTs =
      some ⟨[["A", "B"], ["C"]], [("A", []), ("B", []), ("C", ["A", "B"])], 15⟩ ∧
    RoundExact diamondTs [["A", "B"], ["C"]] := by
  refine ⟨by decide, ?_⟩
  exact C3_round_exact.1 diamondTs 3
    ⟨[["A", "B"], ["C"]], [("A", []), ("B", []), ("C", ["A", "B"])], 15⟩ (by decide)

/-- **C4** — counterexample to the claim as stated: a dependency on an id
not present in the input is **not** treated as already satisfied.  With
`B` depending on the unknown id `ghost`, `B` is not eligible in the first
round (its present dependencies are vacuously scheduled), and the produced
plan `[[A], [B]]` differs from the plan `[[A, B]]` produced when the unknown
id is removed from the dependency set. -/
theorem C4_counterexample :
    (createExecutionPlanV1 2 cexTsC4).map ExecutionPlan.parallelGroups =
      some [["A"], ["B"]] ∧
    (createExecutionPlanV1 2 (stripUnknown cexTsC4)).map ExecutionPlan.parallelGroups =
      some [["A", "B"]] ∧
    eligibleIds cexTsC4 [] = ["A"] ∧
    eligibleIds cexTsC4 ["A"] = [] := by decide

/-- **C4** (amended): a subtask with a dependency on an id absent from the
input is never eligible in any round; it is scheduled only by the
cycle-break fallback, in a group that contains every still-unscheduled
subtask of that round. -/
theorem C4_unknown_dep :
    ∀ (ts : List SubTask) (fuel : Nat) (plan : ExecutionPlan) (st : SubTask)
      (d : String),
      createExecutionPlanV1 fuel ts = some plan → st ∈ ts → d ∈ st.dependencies →
      d ∉ subTaskIds ts →
      ∀ pre g post, plan.parallelGroups = pre ++ g :: post → st.id ∈ g →
        st.id ∉ eligibleIds ts pre.flatten ∧
        ∀ st' ∈ ts, st'.id ∉ pre.flatten → st'.id ∈ g := by
  intro ts fuel plan st d hplan hst hd hdid pre g post heq hmem
  unfold createExecutionPlanV1 at hplan
  rw [Option.map_eq_some'] at hplan
  obtain ⟨gs, hrun, hmk⟩ := hplan
  cases hmk
  replace heq : gs = pre ++ g :: post := heq
  have hrun2 := hrun
  rw [runPlanV1_eq_runPlanV2_false] at hrun2
  have hids := runPlanV2_some_nodup fuel _ gs (baseInv_init ts) hrun2
  have hfull := runPlanV2_some_fullInv hids fuel _ gs (fullInv_init ts) hrun2
  have hground := runPlanV1_some_rounds fuel _ gs (roundInv_init ts) hrun pre g post heq
  have helignot : st.id ∉ eligibleIds ts pre.flatten := by
    intro helig
    obtain ⟨st', hst', hid', _, hds'⟩ := mem_eligibleIds.mp helig
    have hsame : st' = st := List.inj_on_of_nodup_map hids hst' hst hid'
    subst hsame
    have hdpre : d ∈ pre.flatten := hds' d hd
    have hdgs : d ∈ gs.flatten := by
      rw [heq, List.flatten_append]
      exact List.mem_append.mpr (Or.inl hdpre)
    exact hdid (hfull.2.2.subset hdgs)
  refine ⟨helignot, ?_⟩
  intro st' hst' hnotpre
  by_cases hne : eligibleIds ts pre.flatten = []
  · rw [hground]
    unfold roundGroup
    rw [hne]
    simpa using mem_remainingIds.mpr ⟨st', hst', rfl, hnotpre⟩
  · exfalso
    rw [hground, roundGroup_eq_of_elig_ne_nil hne] at hmem
    exact helignot hmem

/-! ## The concurrency limiter (`createPLimit`, second revision)

`createPLimit` is asynchronous code; we model it as a deterministic event
system.  The environment supplies a sequence of events — `submit i` (the
caller hands operation `i` to the limiter) and `settle i` (the promise
underlying the in-flight operation `i` settles) — and each event runs the
synchronous code the source executes at that point:

* `submit i` with `activeCount < concurrency` starts the operation through
  `run` (`activeCount++`); the operation is *accounted*: when it settles,
  `run`'s `finally` calls `next()`;
* `submit i` otherwise pushes the wrapped operation onto the queue;
* `settle i` of an accounted operation runs `next()`: `activeCount--`, and if
  the queue is non-empty its head is dequeued and invoked **directly** — not
  through `run` — so the dequeued operation is *unaccounted*: `activeCount`
  is not incremented for it, and its own settlement will not call `next()`;
* `settle i` of an unaccounted operation only settles the outer promise.

`running` is the list of in-flight operations (started, not settled) with
their accounted flag; `startOrder` records the order operations start. -/

/-- An event at the limiter: a submission, or the settlement of an in-flight
operation. -/
inductive LimEv where
  | submit (id : Nat)
  | settle (id : Nat)
deriving DecidableEq, Repr

/-- The limiter's state: `active` is the JS `activeCount`, `queue` the JS
`queue`; `running`, `startOrder` and `submitted` instrument the execution. -/
structure LimState where
  active : Nat
  queue : List Nat
  running : List (Nat × Bool)
  startOrder : List Nat
  submitted : List Nat
deriving DecidableEq, Repr

/-- The limiter's state right after `createPLimit(concurrency)` returns. -/
def limInit : LimState := ⟨0, [], [], [], []⟩

/-- The synchronous JS code run at one event. -/
def limStep (concurrency : Nat) (s : LimState) : LimEv → LimState
  | .submit i =>
    if s.active < concurrency then
      { s with
          active := s.active + 1,
          running := s.running ++ [(i, true)],
          startOrder := s.startOrder ++ [i],
          submitted := s.submitted ++ [i] }
    else
      { s with queue := s.queue ++ [i], submitted := s.submitted ++ [i] }
  | .settle i =>
    match s.running.find? fun p => p.1 == i with
    | none => s
    | some p =>
      let s1 := { s with running := s.running.filter fun q => !(q.1 == i) }
      if p.2 then
        let s2 := { s1 with active := s1.active - 1 }
        match s2.queue with
        | [] => s2
        | j :: rest =>
          { s2 with
              queue := rest,
              running := s2.running ++ [(j, false)],
              startOrder := s2.startOrder ++ [j] }
      else s1

/-- Run the limiter over an event sequence. -/
def runLim (concurrency : Nat) (evs : List LimEv) : LimState :=
  evs.foldl (limStep concurrency) limInit

/-- Well-formedness of an event sequence: every submitted id is fresh, and
only in-flight operations settle (an operation settles once, after it has
started). -/
def limWfFrom (concurrency : Nat) : LimState → List LimEv → Bool
  | _, [] => true
  | s, .submit i :: evs =>
    !(s.submitted.contains i) && limWfFrom concurrency (limStep concurrency s (.submit i)) evs
  | s, .settle i :: evs =>
    ((s.running.map Prod.fst).contains i) &&
      limWfFrom concurrency (limStep concurrency s (.settle i)) evs

/-- Well-formedness from the initial state. -/
def limWf (concurrency : Nat) (evs : List LimEv) : Bool :=
  limWfFrom concurrency limInit evs

/-- N = 1; ops 1, 2, 3 are submitted, op 1 settles (dequeuing op 2 without
accounting), then op 4 is submitted while op 2 is still running. -/
def c5Trace : List LimEv :=
  [.submit 1, .submit 2, .submit 3, .settle 1, .submit 4]

/-- N = 1; ops 1, 2, 3 are submitted, then ops 1 and 2 settle. -/
def c6Trace : List LimEv :=
  [.submit 1, .submit 2, .submit 3, .settle 1, .settle 2]

/-- **C5** — the code violates the concurrency bound.  With `concurrency = 1`,
after the well-formed event sequence `c5Trace` two operations (2, unaccounted,
and 4, accounted) are simultaneously in flight: when op 1 settled, `next()`
started op 2 without incrementing `activeCount`, so the submission of op 4 saw
`activeCount = 0 < 1` and started immediately. -/
theorem C5_bug :
    limWf 1 c5Trace = true ∧
    (runLim 1 c5Trace).running = [(2, false), (4, true)] ∧
    (runLim 1 c5Trace).running.length = 2 ∧
    ¬ (runLim 1 c5Trace).running.length ≤ 1 := by decide

/-- **C6** — the code starves a queued operation and breaks FIFO admission.
With `concurrency = 1`, after `c6Trace` (ops 1 and 2 have settled) nothing is
in flight, yet op 3 is still queued and never started: op 2 was started
directly by `next()`, outside `run`, so its settlement never called `next()`
to dequeue op 3.  No settlement event is possible any more (`running = []`),
so op 3 is never started.  And in `c5Trace`, op 4 — submitted after op 3 —
starts while op 3 stays queued, violating FIFO start order. -/
theorem C6_bug :
    limWf 1 c6Trace = true ∧
    (runLim 1 c6Trace).running = [] ∧
    (runLim 1 c6Trace).queue = [3] ∧
    (runLim 1 c6Trace).startOrder = [1, 2] ∧
    (runLim 1 c5Trace).startOrder = [1, 2, 4] ∧
    (runLim 1 c5Trace).queue = [3] := by decide

/-! ## The task state machine (first revision)

`processTask` and its helpers are embedded as pure functions over an
`OrchState`; every external collaborator is a field of `World`.  Embedding
choices, documented once here:

* the orchestrator's task map is reduced to the single task being processed
  (lookups by `taskId` always find it), and the backend-sync calls
  (`api.createTask` / `api.updateTask`), which the source wraps in their own
  `try/catch` and which never touch the task, are dropped;
* `notifyListeners` and `saveTasksToStorage` do not change the task, so they
  are the identity here (the observer bus is modelled separately below);
  listeners are total functions in this model, so notifying never throws;
* `Promise.all` over a group is modelled by running the group's
  `executeSubTask` calls sequentially in group order — each call touches only
  its own subtask and agent entries plus the append-only log;
* `Date.now()` is the constant `World.now`; `JSON.stringify` is the opaque
  pure collaborator `World.stringify`;
* the `events` field records each invocation of the primary and sandbox
  executors (the source's `api.executeWithKimi` / `api.executeInSandbox`);
* `OrchState.statuses` records every value assigned to `task.status`, in
  order, starting with the `pending` given at task creation. -/

/-- `determineTaskType` (first revision). -/
def determineTaskType (description : String) : String :=
  let lower := toLowerStr description
  if strIncludes lower "research" || strIncludes lower "find" ||
      strIncludes lower "search" then "research"
  else if strIncludes lower "analyze" || strIncludes lower "process" ||
      strIncludes lower "compute" then "analysis"
  else if strIncludes lower "write" || strIncludes lower "generate" ||
      strIncludes lower "create content" then "content_creation"
  else if strIncludes lower "code" || strIncludes lower "program" ||
      strIncludes lower "develop" then "development"
  else if strIncludes lower "test" || strIncludes lower "verify" ||
      strIncludes lower "validate" then "validation"
  else if strIncludes lower "scrape" || strIncludes lower "extract" ||
      strIncludes lower "crawl" then "data_extraction"
  else if strIncludes lower "api" || strIncludes lower "integrate" ||
      strIncludes lower "connect" then "integration"
  else "general"

/-- The maximal whitespace-free runs of a character list (`acc` holds the
reversed run currently being read). -/
def wsTokens : List Char → List Char → List String
  | acc, [] => if acc.isEmpty then [] else [String.mk acc.reverse]
  | acc, c :: cs =>
    if c.isWhitespace then
      if acc.isEmpty then wsTokens [] cs
      else String.mk acc.reverse :: wsTokens [] cs
    else wsTokens (c :: acc) cs

/-- JS `s.split(/\s+/)`: runs of whitespace separate the words; a leading or
trailing whitespace run contributes an empty first or last word, and the
empty string splits to `[""]`. -/
def splitWsJS (s : String) : List String :=
  if s.data.isEmpty then [""]
  else
    let tokens := wsTokens [] s.data
    ((if (s.data.headD 'x').isWhitespace then [""] else []) ++ tokens) ++
      (if (s.data.getLastD 'x').isWhitespace then [""] else [])

def simpleIndicators : List String := ["single", "simple", "basic", "quick", "one"]

def complexIndicators : List String :=
  ["multiple", "complex", "advanced", "comprehensive", "many", "various",
    "integrate", "system"]

/-- `assessComplexity` (identical in both revisions). -/
def assessComplexity (description : String) : String :=
  let lower := toLowerStr description
  let words := splitWsJS lower
  let simpleScore :=
    (words.filter fun word => simpleIndicators.any fun i => strIncludes word i).length
  let complexScore :=
    (words.filter fun word => complexIndicators.any fun i => strIncludes word i).length
  let complexScore := complexScore + (if words.length > 30 then 1 else 0)
  let simpleScore := simpleScore + (if words.length < 10 then 1 else 0)
  if complexScore > simpleScore then "complex"
  else if simpleScore > complexScore then "simple"
  else "medium"

/-- The research-task regex of `processTask`
(`/research|search|find|latest|trends|news|current|today|202[4-9]|最新|趋势|搜索|研究/i`). -/
def isResearchRegex (description : String) : Bool :=
  let lower := toLowerStr description
  ["research", "search", "find", "latest", "trends", "news", "current",
    "today", "2024", "2025", "2026", "2027", "2028", "2029",
    "最新", "趋势", "搜索", "研究"].any fun k => strIncludes lower k

/-- The `decompositions` object of `decomposeTaskFallback`: a row per task
type, each row holding the templates per complexity. -/
def decompositionRows : List (String × List (String × List String)) :=
  [("research",
    [("simple", ["Search for information", "Summarize findings"]),
     ("medium", ["Define research scope", "Search multiple sources",
       "Cross-reference information", "Compile summary"]),
     ("complex", ["Define research questions", "Search academic sources",
       "Search web sources", "Analyze trends", "Validate findings",
       "Generate comprehensive report"])]),
   ("analysis",
    [("simple", ["Collect data", "Perform analysis", "Present results"]),
     ("medium", ["Collect raw data", "Clean and preprocess",
       "Perform statistical analysis", "Create visualizations", "Interpret results"]),
     ("complex", ["Define analysis framework", "Collect multi-source data",
       "Data cleaning and validation", "Exploratory analysis", "Statistical modeling",
       "Trend analysis", "Generate insights", "Create dashboard"])]),
   ("content_creation",
    [("simple", ["Generate content", "Review and edit"]),
     ("medium", ["Research topic", "Create outline",
       "Generate draft", "Review and refine", "Format output"]),
     ("complex", ["Topic research", "Audience analysis",
       "Content strategy", "Create outline", "Generate sections", "Add visuals",
       "SEO optimization", "Quality review", "Final polish"])]),
   ("development",
    [("simple", ["Write code", "Test implementation"]),
     ("medium", ["Design architecture", "Implement core features",
       "Write tests", "Debug and optimize", "Document code"]),
     ("complex", ["Requirements analysis", "System design",
       "Database design", "API development", "Frontend implementation",
       "Backend implementation", "Integration testing", "Performance optimization",
       "Security review", "Deployment"])]),
   ("validation",
    [("simple", ["Run validation checks", "Report issues"]),
     ("medium", ["Define test cases", "Execute tests",
       "Analyze results", "Report findings", "Suggest fixes"]),
     ("complex", ["Create test plan", "Unit testing",
       "Integration testing", "Performance testing", "Security testing",
       "User acceptance testing", "Bug triage", "Quality assessment",
       "Compliance check"])]),
   ("data_extraction",
    [("simple", ["Scrape target data", "Format output"]),
     ("medium", ["Analyze target structure", "Design scraper",
       "Extract data", "Clean data", "Validate extraction"]),
     ("complex", ["Site structure analysis", "Anti-detection setup",
       "Design extraction pipeline", "Implement crawlers", "Handle pagination",
       "Data transformation", "Quality validation", "Export to multiple formats"])]),
   ("integration",
    [("simple", ["Connect to API", "Test integration"]),
     ("medium", ["API research", "Authentication setup",
       "Implement client", "Error handling", "Test endpoints"]),
     ("complex", ["API analysis", "Architecture design",
       "Authentication implementation", "Rate limiting", "Error handling",
       "Data mapping", "Webhook setup", "Monitoring", "Documentation"])]),
   ("general",
    [("simple", ["Execute task", "Verify result"]),
     ("medium", ["Plan approach", "Execute steps", "Monitor progress",
       "Validate output"]),
     ("complex", ["Requirements gathering", "Approach planning",
       "Resource allocation", "Step execution", "Progress monitoring",
       "Quality checks", "Result aggregation"])])]

/-- JS `decompositions[taskType]?.[complexity]`: look the task type up in the
`decompositions` object, then the complexity in the resulting row. -/
def decompositionTable (taskType complexity : String) : Option (List String) :=
  match decompositionRows.find? fun r => r.1 == taskType with
  | none => none
  | some r => (r.2.find? fun c => c.1 == complexity).map fun c => c.2

/-- `decomposeTaskFallback`: the static template for `(taskType, complexity)`
(`decompositions[taskType]?.[complexity] || decompositions.general[complexity]`),
with chain dependencies and ids `subtask_<now>_<i>`. -/
def decomposeTaskFallback (now : Nat) (description taskType complexity : String) :
    List SubTask :=
  let templates := (decompositionTable taskType complexity).getD
    ((decompositionTable "general" complexity).getD [])
  templates.enum.map fun p =>
    { id := "subtask_" ++ toString now ++ "_" ++ toString p.1,
      description := p.2,
      dependencies :=
        if p.1 > 0 then ["subtask_" ++ toString now ++ "_" ++ toString (p.1 - 1)] else [],
      status := .pending,
      input := { parentTask := description, step := p.1 + 1 },
      createdAt := now }

/-- One element of `api.decomposeTaskWithKimi(...).subtasks`. -/
structure SubTaskSeed where
  id : Option String := none
  description : String
  dependencies : Option (List String) := none
deriving DecidableEq, Repr

/-- The mapping `processTask` applies to one decomposition seed
(`st.id || subtask_<now>_<index>`, `st.dependencies || []`). -/
def seedToSubTask (now : Nat) (parent : String) (index : Nat) (seed : SubTaskSeed) :
    SubTask :=
  { id := match seed.id with
      | some i => if i == "" then "subtask_" ++ toString now ++ "_" ++ toString index else i
      | none => "subtask_" ++ toString now ++ "_" ++ toString index,
    description := seed.description,
    dependencies := seed.dependencies.getD [],
    status := .pending,
    input := { parentTask := parent, step := index + 1 },
    createdAt := now }

/-- Result object of `api.executeInSandbox`. -/
structure SandboxOut where
  output : String
  success : Bool
  executionTime : Nat
  error : Option String := none
deriving DecidableEq, Repr

/-- Result object of `api.generatePDF`. -/
structure PdfOut where
  success : Bool
  filepath : String
  url : String
deriving DecidableEq, Repr

/-- All external collaborators of `processTask`, plus the clock and
`JSON.stringify`.  `Except.error` models a rejected promise. -/
structure World where
  now : Nat
  useRealLLM : Bool
  decompose : Except String (List SubTaskSeed)
  searchAgents : String → String → Except String (List Agent)
  genAgent : String → Except String Agent
  execPrimary : String → String → Except String JsVal
  execSandbox : String → Except String SandboxOut
  generatePDF : String → Except String PdfOut
  stringify : JsVal → String

/-- The subtask list the planning phase assigns to the task: the LLM
decomposition when it is used and succeeds, else the static fallback. -/
def plannedSubTasks (w : World) (description : String) : List SubTask :=
  let taskType := determineTaskType description
  let complexity := assessComplexity description
  if w.useRealLLM then
    match w.decompose with
    | .ok seeds => seeds.enum.map fun p => seedToSubTask w.now description p.1 p.2
    | .error _ => decomposeTaskFallback w.now description taskType complexity
  else decomposeTaskFallback w.now description taskType complexity

/-- An executor invocation, recorded for the no-retry property. -/
inductive ExecEv where
  | callPrimary (subTaskId : String)
  | callSandbox (subTaskId : String)
deriving DecidableEq, Repr

/-- The orchestrator's observable state while processing one task. -/
structure OrchState where
  task : Task
  statuses : List TaskStatus
  events : List ExecEv
deriving DecidableEq, Repr

/-- `this.log(...)`: append a log entry (persistence and notification do not
change the task). -/
def logS (w : World) (s : OrchState) (level : LogLevel) (message : String)
    (subTaskId agentId : Option String) : OrchState :=
  { s with task := { s.task with logs := s.task.logs ++
      [{ timestamp := w.now, level := level, message := message,
         subTaskId := subTaskId, agentId := agentId }] } }

/-- `updateTaskStatus`: set the status (recording it in `statuses`) and set
`startedAt` on the first transition into `executing` (`!task.startedAt` is
JS-falsy: absent or `0`). -/
def updateTaskStatus (w : World) (s : OrchState) (status : TaskStatus) : OrchState :=
  let t := s.task
  let t :=
    { t with
        status := status,
        startedAt :=
          if status = .executing ∧ t.startedAt.getD 0 = 0 then some w.now
          else t.startedAt }
  { s with task := t, statuses := s.statuses ++ [status] }

/-- Mutate the first subtask with the given id (JS mutates the object
`find` returned). -/
def updateFirstSub : List SubTask → String → (SubTask → SubTask) → List SubTask
  | [], _, _ => []
  | st :: r, id, f => if st.id == id then f st :: r else st :: updateFirstSub r id f

/-- Mutate the first agent with the given id. -/
def updateFirstAgent : List Agent → String → (Agent → Agent) → List Agent
  | [], _, _ => []
  | a :: r, id, f => if a.id == id then f a :: r else a :: updateFirstAgent r id f

def modifySub (s : OrchState) (id : String) (f : SubTask → SubTask) : OrchState :=
  { s with task := { s.task with subTasks := updateFirstSub s.task.subTasks id f } }

def modifyAgent (s : OrchState) (id : String) (f : Agent → Agent) : OrchState :=
  { s with task := { s.task with agents := updateFirstAgent s.task.agents id f } }

/-- `isAgentSuitableForSubtask`: keyword-overlap heuristic. -/
def isAgentSuitableForSubtask (agent : Agent) (st : SubTask) : Bool :=
  let agentDesc := toLowerStr agent.description
  let subTaskDesc := toLowerStr st.description
  let keywords := (splitWsJS subTaskDesc).filter fun word => word.length > 4
  let matchCount := (keywords.filter fun k => strIncludes agentDesc k).length
  matchCount ≥ 1 ||
    strIncludes agentDesc (toLowerStr ((subTaskDesc.splitOn " ").headD ""))

/-- The loop body of `discoverOrGenerateAgents`: assign a matching GitHub
agent not already taken, else generate one; a generation failure aborts the
loop (the exception propagates), leaving later subtasks untouched.  Returns
the updated state, the agents list, the (partially) updated subtask list and
the error, if one was thrown. -/
def agentLoop (w : World) (ghAgents : List Agent) :
    OrchState → List Agent → List SubTask →
      OrchState × List Agent × List SubTask × Option String
  | s, acc, [] => (s, acc, [], none)
  | s, acc, st :: rest =>
    let chosen : Option Agent :=
      match ghAgents.find? fun a => isAgentSuitableForSubtask a st with
      | some a => if (acc.find? fun b => b.id == a.id) = none then some a else none
      | none => none
    match chosen with
    | some a =>
      let out := agentLoop w ghAgents s (acc ++ [a]) rest
      (out.1, out.2.1, { st with agentId := some a.id } :: out.2.2.1, out.2.2.2)
    | none =>
      let s1 := logS w s .info ("Generating agent for: " ++ st.description) none none
      match w.genAgent st.description with
      | .error e => (s1, acc, st :: rest, some e)
      | .ok agent =>
        let out := agentLoop w ghAgents s1 (acc ++ [agent]) rest
        (out.1, out.2.1, { st with agentId := some agent.id } :: out.2.2.1, out.2.2.2)

/-- `discoverOrGenerateAgents`. -/
def discoverOrGenerateAgents (w : World) (s : OrchState) :
    OrchState × List Agent × List SubTask × Option String :=
  let taskType := determineTaskType s.task.description
  let s1 := logS w s .info "Searching GitHub for existing agents..." none none
  match w.searchAgents s.task.description taskType with
  | .error e => (s1, [], s1.task.subTasks, some e)
  | .ok ghAgents => agentLoop w ghAgents s1 [] s1.task.subTasks

/-- The result object built from a sandbox execution. -/
def sandboxResultVal (sr : SandboxOut) : JsVal :=
  .exec (.str sr.output) sr.success (some sr.executionTime)
    (some (match sr.error with
      | some er => [er]
      | none => ["Executed in sandbox"]))

/-- The result object built when the agent has no code. -/
def noCodeResultVal (st : SubTask) : JsVal :=
  .exec (.str ("Task completed: " ++ st.description)) true (some 0)
    (some ["No code available"])

/-- The success epilogue of `executeSubTask`: mark the subtask and agent
completed and store the normalized result
(`output: result?.output || result`, `executionTime || 1500`, …). -/
def successUpdate (w : World) (s : OrchState) (st : SubTask) (agent : Agent)
    (result : JsVal) : OrchState :=
  let out := jsGetOutput result
  let s := modifySub s st.id fun x =>
    { x with
        status := .completed,
        completedAt := some w.now,
        output := if jsTruthy out then out else result }
  let s := modifyAgent s agent.id fun a =>
    { a with
        status := .completed,
        completedAt := some w.now,
        result := some
          { output := match jsGetOutput result with
              | .str os => os
              | _ => w.stringify result,
            data := result,
            logs := (jsGetLogs result).getD [],
            executionTime := match jsGetExecTime result with
              | some et => if et == 0 then 1500 else et
              | none => 1500 } }
  logS w s .success ("Subtask completed: " ++ st.description) (some st.id) (some agent.id)

/-- The catch block of `executeSubTask`: mark the subtask and agent `error`
and record the error message on the agent. -/
def failUpdate (w : World) (s : OrchState) (st : SubTask) (agent : Agent)
    (e : String) : OrchState :=
  let s := modifySub s st.id fun x => { x with status := .error }
  let s := modifyAgent s agent.id fun a => { a with status := .error, error := some e }
  logS w s .error ("Subtask failed: " ++ st.description ++ " - " ++ e)
    (some st.id) (some agent.id)

/-- The `else` arm of `if (agent.code)` in the sandbox fallback: no code, a
default result object is used (no sandbox call). -/
def execNoCode (w : World) (s : OrchState) (st : SubTask) (agent : Agent)
    (subTaskId : String) : OrchState :=
  let s := logS w s .info "Sandbox execution successful" (some subTaskId) (some agent.id)
  successUpdate w s st agent (noCodeResultVal st)

/-- The sandbox invocation (`api.executeInSandbox(agent.code)`). -/
def execSandboxCall (w : World) (s : OrchState) (st : SubTask) (agent : Agent)
    (subTaskId : String) (code : String) : OrchState :=
  let s := { s with events := s.events ++ [.callSandbox subTaskId] }
  match w.execSandbox code with
  | .ok sr =>
    let s := logS w s .info "Sandbox execution successful" (some subTaskId) (some agent.id)
    successUpdate w s st agent (sandboxResultVal sr)
  | .error e2 =>
    let s := logS w s .error ("Sandbox also failed: " ++ e2) (some subTaskId) (some agent.id)
    failUpdate w s st agent e2

/-- The catch arm of the primary execution: warn, then try the sandbox if the
agent has (truthy) code. -/
def execAfterPrimaryFail (w : World) (s : OrchState) (st : SubTask) (agent : Agent)
    (subTaskId : String) (e1 : String) : OrchState :=
  let s := logS w s .warn ("DeepSeek API failed: " ++ e1 ++ ", trying sandbox...")
    (some subTaskId) (some agent.id)
  match agent.code with
  | some code =>
    if code == "" then execNoCode w s st agent subTaskId
    else execSandboxCall w s st agent subTaskId code
  | none => execNoCode w s st agent subTaskId

/-- The `try` block of `executeSubTask` after the subtask and agent were
marked running. -/
def execTry (w : World) (s : OrchState) (st : SubTask) (agent : Agent)
    (subTaskId : String) : OrchState :=
  let s := logS w s .info ("Starting execution for: " ++ st.description)
    (some subTaskId) (some agent.id)
  if w.useRealLLM then
    let s := logS w s .info "Calling DeepSeek API for execution..."
      (some subTaskId) (some agent.id)
    let s := { s with events := s.events ++ [.callPrimary subTaskId] }
    match w.execPrimary (agent.code.getD "") st.description with
    | .ok result =>
      let s := logS w s .info "DeepSeek API execution successful"
        (some subTaskId) (some agent.id)
      successUpdate w s st agent result
    | .error e1 => execAfterPrimaryFail w s st agent subTaskId e1
  else successUpdate w s st agent JsVal.undefVal

/-- `executeSubTask` (first revision): primary executor, sandbox fallback,
error marking; the recorded `events` show each executor invocation. -/
def executeSubTask (w : World) (s : OrchState) (subTaskId : String) : OrchState :=
  match s.task.subTasks.find? fun st => st.id == subTaskId with
  | none => s
  | some st =>
    match s.task.agents.find? fun a => st.agentId == some a.id with
    | none =>
      let s := logS w s .error ("No agent found for subtask: " ++ st.description)
        (some subTaskId) none
      modifySub s st.id fun x => { x with status := .error }
    | some agent =>
      let s := modifySub s st.id fun x =>
        { x with status := .running, startedAt := some w.now }
      let s := modifyAgent s agent.id fun a => { a with status := .running }
      let s := logS w s .info ("Agent " ++ agent.name ++ " executing: " ++ st.description)
        (some subTaskId) (some agent.id)
      execTry w s st agent subTaskId

/-- `Promise.all(group.map(id => executeSubTask(taskId, id)))`, modelled in
group order. -/
def execGroup (w : World) (s : OrchState) (group : List String) : OrchState :=
  group.foldl (fun s' id => executeSubTask w s' id) s

/-- `executePlan` (first revision): run the groups strictly in order. -/
def executePlan (w : World) (s : OrchState) (plan : ExecutionPlan) : OrchState :=
  plan.parallelGroups.enum.foldl
    (fun s' p =>
      let s'' := logS w s' .info ("Executing parallel group " ++ toString (p.1 + 1) ++
        "/" ++ toString plan.parallelGroups.length ++ " (" ++ toString p.2.length ++
        " subtasks)") none none
      execGroup w s'' p.2) s

/-- The text of a task status, as the source's template literal prints it. -/
def statusText : TaskStatus → String
  | .pending => "pending"
  | .analyzing => "analyzing"
  | .planning => "planning"
  | .executing => "executing"
  | .completed => "completed"
  | .error => "error"

/-- One line of the report's execution summary. -/
def summaryLine (stringify : JsVal → String) (t : Task) (st : SubTask) : String :=
  let agent := t.agents.find? fun a => st.agentId == some a.id
  let glyph := if st.status == .completed then "✅"
    else if st.status == .error then "❌" else "⏳"
  let name := match agent with
    | some a => if a.name == "" then "Unknown" else a.name
    | none => "Unknown"
  let base := glyph ++ " **" ++ st.description ++ "** (Agent: " ++ name ++ ")\n"
  if jsTruthy st.output then
    base ++ "   Output: " ++
      (match st.output with
        | .str os => os
        | v => stringify v) ++ "\n"
  else base

/-- The failed-subtasks block of the report (present only when a subtask
failed). -/
def failedBlock (failed : List SubTask) : String :=
  "**Failed Subtasks:**\n" ++
    (failed.foldl (fun acc st => acc ++ ("- " ++ st.description ++ "\n")) "") ++ "\n"

/-- `aggregateResults`. -/
def aggregateResults (stringify : JsVal → String) (t : Task) : String :=
  let completedSubTasks := t.subTasks.filter fun st => st.status == .completed
  let failedSubTasks := t.subTasks.filter fun st => st.status == .error
  let r := "# Task Execution Report\n\n" ++ "**Task:** " ++ t.description ++ "\n\n" ++
    "**Status:** " ++ statusText t.status ++ "\n\n" ++ "**Completed Subtasks:** " ++
    toString completedSubTasks.length ++ "/" ++ toString t.subTasks.length ++ "\n\n"
  let r := if failedSubTasks.length > 0 then r ++ failedBlock failedSubTasks else r
  let r := r ++ "## Execution Summary\n\n"
  t.subTasks.foldl (fun acc st => acc ++ summaryLine stringify t st) r

/-- The analyzing phase of `processTask` (status, logs, classification). -/
def phaseAnalyze (w : World) (s0 : OrchState) : OrchState :=
  let s := updateTaskStatus w s0 .analyzing
  let s := logS w s .info "Analyzing task requirements..." none none
  let taskType := determineTaskType s.task.description
  let complexity := assessComplexity s.task.description
  let s := if isResearchRegex s.task.description then
      logS w s .info
        "🔍 Research task detected - will use web search if Perplexity API is configured"
        none none
    else s
  logS w s .success ("Task type: " ++ taskType ++ ", Complexity: " ++ complexity)
    none none

/-- The decomposition half of the planning phase: set the status, obtain the
subtasks (LLM or fallback) and assign them to the task. -/
def phasePlanAssign (w : World) (s0 : OrchState) : OrchState :=
  let s := updateTaskStatus w s0 .planning
  let s := logS w s .info "Decomposing task into subtasks..." none none
  let subTasks := plannedSubTasks w s.task.description
  let s := { s with task := { s.task with subTasks := subTasks } }
  let s := logS w s .success ("Created " ++ toString subTasks.length ++ " subtasks")
    none none
  logS w s .info "Discovering and generating agents..." none none

/-- The inner `try/catch` around `api.generatePDF`: on success the PDF link
is appended to the task result; a failure is only logged. -/
def pdfAttempt (w : World) (s9 : OrchState) : OrchState :=
  match w.generatePDF (s9.task.result.getD "") with
  | .ok pdf =>
    if pdf.success then
      let sa := logS w s9 .success ("PDF saved: " ++ pdf.filepath) none none
      { sa with task := { sa.task with result := some ((sa.task.result.getD "") ++
        "\n\n---\n**PDF File**: [Download PDF](" ++ pdf.url ++ ")") } }
    else s9
  | .error _ => logS w s9 .warn "PDF generation failed, but results are available"
      none none

/-- The tail of `processTask` once the execution plan exists: execute the
groups, mark the task completed, aggregate the result (twice, with the PDF
attempt in between, exactly as the source does). -/
def phaseFinish (w : World) (s3 : OrchState) (plan : ExecutionPlan) : OrchState :=
  let s4 := logS w s3 .info ("Execution plan: " ++
    toString plan.parallelGroups.length ++ " parallel groups, estimated " ++
    toString plan.estimatedTime ++ "s") none none
  let s5 := updateTaskStatus w s4 .executing
  let s6 := executePlan w s5 plan
  let s7 := updateTaskStatus w s6 .completed
  let s8 := { s7 with task := { s7.task with
    result := some (aggregateResults w.stringify s7.task),
    completedAt := some w.now } }
  let s9 := logS w s8 .info "Generating PDF document..." none none
  let s10 := pdfAttempt w s9
  let s11 := logS w s10 .success "Task completed successfully" none none
  let s12 := updateTaskStatus w s11 .completed
  let s13 := { s12 with task := { s12.task with
    result := some (aggregateResults w.stringify s12.task),
    completedAt := some w.now } }
  logS w s13 .success "Task completed successfully" none none

/-- `processTask` (first revision).  The `none` branch of the execution-plan
match models the grouping loop spinning forever: the task then stays in
`planning` and the state at that point is the limit of everything ever
observed. -/
def processTask (w : World) (s0 : OrchState) : OrchState :=
  let s := phasePlanAssign w (phaseAnalyze w s0)
  match discoverOrGenerateAgents w s with
  | (s1, _, subTasks', some e) =>
    let s2 := { s1 with task := { s1.task with subTasks := subTasks' } }
    let s3 := updateTaskStatus w s2 .error
    logS w s3 .error ("Task failed: " ++ e) none none
  | (s1, agents, subTasks', none) =>
    let s2 := { s1 with task := { s1.task with subTasks := subTasks', agents := agents } }
    let s3 := logS w s2 .success ("Prepared " ++ toString agents.length ++ " agents (" ++
      toString (agents.filter fun a => a.source == .github).length ++ " from GitHub, " ++
      toString (agents.filter fun a => a.source == .generated).length ++ " generated)")
      none none
    match createExecutionPlanV1 s3.task.subTasks.length s3.task.subTasks with
    | none => s3
    | some plan => phaseFinish w s3 plan

/-- The task `submitTask` creates (status `pending`, one submission log). -/
def initTask (w : World) (description : String) : Task :=
  { id := "task_" ++ toString w.now,
    description := description,
    status := .pending,
    subTasks := [],
    agents := [],
    createdAt := w.now,
    logs := [{ timestamp := w.now, level := .info,
               message := "Task submitted: " ++ description }] }

/-- Submit a task and process it. -/
def runTask (w : World) (description : String) : OrchState :=
  processTask w { task := initTask w description, statuses := [.pending], events := [] }

/-! ### Frame lemmas: which helpers touch `statuses` -/

theorem logS_statuses (w : World) (s : OrchState) (level : LogLevel) (msg : String)
    (a b : Option String) : (logS w s level msg a b).statuses = s.statuses := rfl

theorem updateTaskStatus_statuses (w : World) (s : OrchState) (st : TaskStatus) :
    (updateTaskStatus w s st).statuses = s.statuses ++ [st] := rfl

theorem modifySub_statuses (s : OrchState) (id : String) (f : SubTask → SubTask) :
    (modifySub s id f).statuses = s.statuses := rfl

theorem modifyAgent_statuses (s : OrchState) (id : String) (f : Agent → Agent) :
    (modifyAgent s id f).statuses = s.statuses := rfl

theorem successUpdate_statuses (w : World) (s : OrchState) (st : SubTask)
    (agent : Agent) (result : JsVal) :
    (successUpdate w s st agent result).statuses = s.statuses := rfl

theorem failUpdate_statuses (w : World) (s : OrchState) (st : SubTask) (agent : Agent)
    (e : String) : (failUpdate w s st agent e).statuses = s.statuses := rfl

theorem execNoCode_statuses (w : World) (s : OrchState) (st : SubTask) (agent : Agent)
    (id : String) : (execNoCode w s st agent id).statuses = s.statuses := rfl

theorem execSandboxCall_statuses (w : World) (s : OrchState) (st : SubTask)
    (agent : Agent) (id code : String) :
    (execSandboxCall w s st agent id code).statuses = s.statuses := by
  unfold execSandboxCall
  split
  · rfl
  · rfl

theorem execAfterPrimaryFail_statuses (w : World) (s : OrchState) (st : SubTask)
    (agent : Agent) (id e1 : String) :
    (execAfterPrimaryFail w s st agent id e1).statuses = s.statuses := by
  unfold execAfterPrimaryFail
  split
  · split
    · rfl
    · exact execSandboxCall_statuses ..
  · rfl

theorem execTry_statuses (w : World) (s : OrchState) (st : SubTask) (agent : Agent)
    (id : String) : (execTry w s st agent id).statuses = s.statuses := by
  unfold execTry
  split
  · split
    · rfl
    · exact execAfterPrimaryFail_statuses ..
  · rfl

theorem executeSubTask_statuses (w : World) (s : OrchState) (id : String) :
    (executeSubTask w s id).statuses = s.statuses := by
  unfold executeSubTask
  split
  · rfl
  · split
    · rfl
    · exact execTry_statuses ..

theorem execGroup_statuses (w : World) (group : List String) :
    ∀ s : OrchState, (execGroup w s group).statuses = s.statuses := by
  induction group with
  | nil => intro s; rfl
  | cons id rest ih =>
    intro s
    show (execGroup w (executeSubTask w s id) rest).statuses = s.statuses
    rw [ih, executeSubTask_statuses]

theorem executePlan_statuses (w : World) (s : OrchState) (plan : ExecutionPlan) :
    (executePlan w s plan).statuses = s.statuses := by
  unfold executePlan
  generalize plan.parallelGroups.enum = l
  induction l generalizing s with
  | nil => rfl
  | cons p rest ih =>
    rw [List.foldl_cons]
    rw [ih]
    rw [execGroup_statuses, logS_statuses]

theorem agentLoop_statuses (w : World) (gh : List Agent) :
    ∀ (l : List SubTask) (s : OrchState) (acc : List Agent),
      (agentLoop w gh s acc l).1.statuses = s.statuses := by
  intro l
  induction l with
  | nil => intro s acc; rfl
  | cons st rest ih =>
    intro s acc
    unfold agentLoop
    dsimp only
    split
    · exact ih s _
    · split
      · rfl
      · exact ih _ _

theorem discover_statuses (w : World) (s : OrchState) :
    (discoverOrGenerateAgents w s).1.statuses = s.statuses := by
  unfold discoverOrGenerateAgents
  dsimp only
  split
  · rfl
  · rw [agentLoop_statuses]
    rfl

/-! ### The status trace of `processTask` -/

theorem phaseAnalyze_statuses (w : World) (s : OrchState) :
    (phaseAnalyze w s).statuses = s.statuses ++ [.analyzing] := by
  simp only [phaseAnalyze, logS_statuses, apply_ite OrchState.statuses,
    updateTaskStatus_statuses, ite_self]

theorem phasePlanAssign_statuses (w : World) (s : OrchState) :
    (phasePlanAssign w s).statuses = s.statuses ++ [.planning] := rfl

theorem pdfAttempt_statuses (w : World) (s : OrchState) :
    (pdfAttempt w s).statuses = s.statuses := by
  unfold pdfAttempt
  split
  · split <;> rfl
  · rfl

theorem phaseFinish_statuses (w : World) (s : OrchState) (plan : ExecutionPlan) :
    (phaseFinish w s plan).statuses =
      s.statuses ++ [.executing, .completed, .completed] := by
  simp only [phaseFinish, logS_statuses, updateTaskStatus_statuses,
    pdfAttempt_statuses, executePlan_statuses]
  simp

theorem processTask_statuses (w : World) (s0 : OrchState) :
    (processTask w s0).statuses =
        s0.statuses ++ [.analyzing, .planning, .executing, .completed, .completed] ∨
      (processTask w s0).statuses = s0.statuses ++ [.analyzing, .planning, .error] ∨
      (processTask w s0).statuses = s0.statuses ++ [.analyzing, .planning] := by
  unfold processTask
  dsimp only
  rcases h : discoverOrGenerateAgents w (phasePlanAssign w (phaseAnalyze w s0)) with
    ⟨s1, ag, sts', e⟩
  have hs1 : s1.statuses = s0.statuses ++ [.analyzing, .planning] := by
    have h2 := discover_statuses w (phasePlanAssign w (phaseAnalyze w s0))
    rw [h] at h2
    dsimp only at h2
    rw [phasePlanAssign_statuses, phaseAnalyze_statuses] at h2
    simpa using h2
  cases e with
  | some err =>
    right; left
    show s1.statuses ++ [TaskStatus.error] = _
    rw [hs1]
    simp
  | none =>
    dsimp only
    split
    · right; right
      exact hs1
    · left
      rw [phaseFinish_statuses]
      show s1.statuses ++ [TaskStatus.executing, .completed, .completed] = _
      rw [hs1]
      simp

/-- The sequence of distinct values a status trace passes through:
consecutive duplicates collapsed (re-assigning the same status is not an
observable state change). -/
def collapseConsec : List TaskStatus → List TaskStatus
  | [] => []
  | [a] => [a]
  | a :: b :: r =>
    if a = b then collapseConsec (b :: r) else a :: collapseConsec (b :: r)

/-- The property of claim C7: the observed status sequence is a subsequence
of `[pending, analyzing, planning, executing, completed]`, or ends in the
terminal `error` entered from `analyzing`, `planning` or `executing`, never
revisiting an earlier state. -/
def GoodTrace (tr : List TaskStatus) : Prop :=
  List.Sublist (collapseConsec tr)
      [.pending, .analyzing, .planning, .executing, .completed] ∨
  ∃ p, collapseConsec tr = p ++ [TaskStatus.error] ∧
    List.Sublist p [.pending, .analyzing, .planning, .executing] ∧
    p.getLastD .error ∈ [TaskStatus.analyzing, .planning, .executing]

/-- **C7**: for every collaborator behaviour and every task description, the
sequence of status values the task passes through is monotone per the state
machine: a subsequence of
`[pending, analyzing, planning, executing, completed]`, or terminal `error`
entered from `analyzing`, `planning` or `executing`; no status ever returns
to an earlier value and `pending` is never re-entered. -/
theorem C7_status_monotone (w : World) (description : String) :
    GoodTrace (runTask w description).statuses := by
  unfold runTask
  rcases processTask_statuses w
      { task := initTask w description, statuses := [.pending], events := [] } with
    h | h | h <;> rw [h] <;> dsimp only
  · left
    decide
  · right
    exact ⟨[.pending, .analyzing, .planning], by decide, by decide, by decide⟩
  · left
    decide

/-- **C4** — witness: the amended theorem applied to the concrete input with
the unknown id `ghost`. -/
theorem C4_witness :
    ("ghost" ∉ subTaskIds cexTsC4) ∧
    (sampleSub "B" ["ghost"]).id ∉ eligibleIds cexTsC4 [["A"]].flatten ∧
    (∀ st' ∈ cexTsC4, st'.id ∉ [["A"]].flatten → st'.id ∈ ["B"]) := by
  refine ⟨by decide, ?_⟩
  exact C4_unknown_dep cexTsC4 2
    ⟨[["A"], ["B"]], [("A", []), ("B", ["ghost"])], 10⟩
    (sampleSub "B" ["ghost"]) "ghost" (by decide) (by decide) (by decide)
    (by decide) [["A"]] ["B"] [] (by decide) (by decide)

/-! ### Claim C8: decomposition fallback

The execution phase mutates the subtasks' `status`, `output` and timestamp
fields but never their identity: we track the *signature*
`(id, description, dependencies)` of each subtask through `processTask` and
show the final task carries exactly the signatures the planning phase
assigned. -/

/-- The planning-determined identity of a subtask. -/
def subSig (st : SubTask) : String × String × List String :=
  (st.id, st.description, st.dependencies)

theorem updateFirstSub_subSig (id : String) (f : SubTask → SubTask)
    (hf : ∀ x, subSig (f x) = subSig x) :
    ∀ l : List SubTask, (updateFirstSub l id f).map subSig = l.map subSig := by
  intro l
  induction l with
  | nil => rfl
  | cons st r ih =>
    unfold updateFirstSub
    split
    · simp [hf]
    · simp [ih]

theorem modifySub_subSig (s : OrchState) (id : String) (f : SubTask → SubTask)
    (hf : ∀ x, subSig (f x) = subSig x) :
    (modifySub s id f).task.subTasks.map subSig = s.task.subTasks.map subSig :=
  updateFirstSub_subSig id f hf s.task.subTasks

theorem modifyAgent_subTasks (s : OrchState) (id : String) (f : Agent → Agent) :
    (modifyAgent s id f).task.subTasks = s.task.subTasks := rfl

theorem logS_subTasks (w : World) (s : OrchState) (level : LogLevel) (msg : String)
    (a b : Option String) : (logS w s level msg a b).task.subTasks = s.task.subTasks := rfl

theorem updateTaskStatus_subTasks (w : World) (s : OrchState) (st : TaskStatus) :
    (updateTaskStatus w s st).task.subTasks = s.task.subTasks := rfl

theorem events_subTasks (s : OrchState) (evs : List ExecEv) :
    ({ s with events := evs } : OrchState).task.subTasks = s.task.subTasks := rfl

theorem successUpdate_subSig (w : World) (s : OrchState) (st : SubTask)
    (agent : Agent) (result : JsVal) :
    (successUpdate w s st agent result).task.subTasks.map subSig =
      s.task.subTasks.map subSig := by
  unfold successUpdate
  dsimp only
  rw [logS_subTasks, modifyAgent_subTasks]
  exact modifySub_subSig s st.id _ fun x => rfl

theorem failUpdate_subSig (w : World) (s : OrchState) (st : SubTask) (agent : Agent)
    (e : String) :
    (failUpdate w s st agent e).task.subTasks.map subSig =
      s.task.subTasks.map subSig := by
  unfold failUpdate
  dsimp only
  rw [logS_subTasks, modifyAgent_subTasks]
  exact modifySub_subSig s st.id _ fun x => rfl

theorem execNoCode_subSig (w : World) (s : OrchState) (st : SubTask) (agent : Agent)
    (id : String) :
    (execNoCode w s st agent id).task.subTasks.map subSig =
      s.task.subTasks.map subSig := by
  unfold execNoCode
  dsimp only
  rw [successUpdate_subSig, logS_subTasks]

theorem execSandboxCall_subSig (w : World) (s : OrchState) (st : SubTask)
    (agent : Agent) (id code : String) :
    (execSandboxCall w s st agent id code).task.subTasks.map subSig =
      s.task.subTasks.map subSig := by
  unfold execSandboxCall
  dsimp only
  split
  · rw [successUpdate_subSig, logS_subTasks]
  · rw [failUpdate_subSig, logS_subTasks]

theorem execAfterPrimaryFail_subSig (w : World) (s : OrchState) (st : SubTask)
    (agent : Agent) (id e1 : String) :
    (execAfterPrimaryFail w s st agent id e1).task.subTasks.map subSig =
      s.task.subTasks.map subSig := by
  unfold execAfterPrimaryFail
  dsimp only
  split
  · split
    · rw [execNoCode_subSig, logS_subTasks]
    · rw [execSandboxCall_subSig, logS_subTasks]
  · rw [execNoCode_subSig, logS_subTasks]

theorem execTry_subSig (w : World) (s : OrchState) (st : SubTask) (agent : Agent)
    (id : String) :
    (execTry w s st agent id).task.subTasks.map subSig =
      s.task.subTasks.map subSig := by
  unfold execTry
  dsimp only
  split
  · split
    · simp only [successUpdate_subSig, logS_subTasks, events_subTasks]
    · simp only [execAfterPrimaryFail_subSig, logS_subTasks, events_subTasks]
  · rw [successUpdate_subSig, logS_subTasks]

theorem modifySub_err_subSig (s : OrchState) (id : String) :
    (modifySub s id fun x =>
        { x with status := SubStatus.error }).task.subTasks.map subSig =
      s.task.subTasks.map subSig :=
  modifySub_subSig s id _ fun x => rfl

theorem modifySub_run_subSig (s : OrchState) (id : String) (n : Nat) :
    (modifySub s id fun x =>
        { x with status := SubStatus.running,
                 startedAt := some n }).task.subTasks.map subSig =
      s.task.subTasks.map subSig :=
  modifySub_subSig s id _ fun x => rfl

theorem executeSubTask_subSig (w : World) (s : OrchState) (id : String) :
    (executeSubTask w s id).task.subTasks.map subSig =
      s.task.subTasks.map subSig := by
  unfold executeSubTask
  split
  · rfl
  · split
    · dsimp only
      rw [modifySub_err_subSig, logS_subTasks]
    · dsimp only
      rw [execTry_subSig, logS_subTasks, modifyAgent_subTasks, modifySub_run_subSig]

theorem execGroup_subSig (w : World) (group : List String) :
    ∀ s : OrchState,
      (execGroup w s group).task.subTasks.map subSig =
        s.task.subTasks.map subSig := by
  induction group with
  | nil => intro s; rfl
  | cons id rest ih =>
    intro s
    show (execGroup w (executeSubTask w s id) rest).task.subTasks.map subSig =
      s.task.subTasks.map subSig
    rw [ih, executeSubTask_subSig]

theorem executePlan_subSig (w : World) (s : OrchState) (plan : ExecutionPlan) :
    (executePlan w s plan).task.subTasks.map subSig =
      s.task.subTasks.map subSig := by
  unfold executePlan
  generalize plan.parallelGroups.enum = l
  induction l generalizing s with
  | nil => rfl
  | cons p rest ih =>
    rw [List.foldl_cons]
    rw [ih]
    rw [execGroup_subSig, logS_subTasks]

theorem pdfAttempt_subTasks (w : World) (s : OrchState) :
    (pdfAttempt w s).task.subTasks = s.task.subTasks := by
  unfold pdfAttempt
  split
  · split <;> rfl
  · rfl

theorem resultWrap_subTasks (s : OrchState) (r : Option String) (n : Option Nat) :
    ({ s with task := { s.task with result := r, completedAt := n } }
        : OrchState).task.subTasks = s.task.subTasks := rfl

theorem phaseFinish_subSig (w : World) (s : OrchState) (plan : ExecutionPlan) :
    (phaseFinish w s plan).task.subTasks.map subSig =
      s.task.subTasks.map subSig := by
  unfold phaseFinish
  dsimp only
  simp only [logS_subTasks, resultWrap_subTasks, updateTaskStatus_subTasks,
    pdfAttempt_subTasks]
  rw [executePlan_subSig]
  simp only [updateTaskStatus_subTasks, logS_subTasks]

theorem agentLoop_subSig (w : World) (gh : List Agent) :
    ∀ (l : List SubTask) (s : OrchState) (acc : List Agent),
      ((agentLoop w gh s acc l).2.2.1).map subSig = l.map subSig := by
  intro l
  induction l with
  | nil => intro s acc; rfl
  | cons st rest ih =>
    intro s acc
    unfold agentLoop
    dsimp only
    split
    · simp only [List.map_cons, ih]
      rfl
    · split
      · rfl
      · simp only [List.map_cons, ih]
        rfl

theorem discover_subSig (w : World) (s : OrchState) :
    ((discoverOrGenerateAgents w s).2.2.1).map subSig =
      s.task.subTasks.map subSig := by
  unfold discoverOrGenerateAgents
  dsimp only
  split
  · rfl
  · rw [agentLoop_subSig]
    rfl

theorem phaseAnalyze_description (w : World) (s : OrchState) :
    (phaseAnalyze w s).task.description = s.task.description := by
  unfold phaseAnalyze
  dsimp only
  split <;> rfl

theorem phasePlanAssign_subTasks (w : World) (s : OrchState) :
    (phasePlanAssign w s).task.subTasks =
      plannedSubTasks w s.task.description := rfl

theorem processTask_subSig (w : World) (s0 : OrchState) :
    (processTask w s0).task.subTasks.map subSig =
      (plannedSubTasks w s0.task.description).map subSig := by
  unfold processTask
  dsimp only
  rcases h : discoverOrGenerateAgents w (phasePlanAssign w (phaseAnalyze w s0)) with
    ⟨s1, ag, sts', e⟩
  have hsts : sts'.map subSig = (plannedSubTasks w s0.task.description).map subSig := by
    have h2 := discover_subSig w (phasePlanAssign w (phaseAnalyze w s0))
    rw [h] at h2
    dsimp only at h2
    rw [phasePlanAssign_subTasks, phaseAnalyze_description] at h2
    exact h2
  cases e with
  | some err =>
    dsimp only
    rw [logS_subTasks, updateTaskStatus_subTasks]
    exact hsts
  | none =>
    dsimp only
    split
    · rw [logS_subTasks]
      exact hsts
    · rw [phaseFinish_subSig, logS_subTasks]
      exact hsts

theorem runTask_subSig (w : World) (description : String) :
    (runTask w description).task.subTasks.map subSig =
      (plannedSubTasks w description).map subSig :=
  processTask_subSig w
    { task := initTask w description, statuses := [.pending], events := [] }

theorem ite3_mem (a b : Nat) :
    (if a > b then "complex" else if b > a then "simple" else "medium") = "simple" ∨
    (if a > b then "complex" else if b > a then "simple" else "medium") = "medium" ∨
    (if a > b then "complex" else if b > a then "simple" else "medium") = "complex" := by
  by_cases h1 : a > b
  · rw [if_pos h1]
    exact .inr (.inr rfl)
  · rw [if_neg h1]
    by_cases h2 : b > a
    · rw [if_pos h2]
      exact .inl rfl
    · rw [if_neg h2]
      exact .inr (.inl rfl)

/-- `assessComplexity` only ever returns one of the three table keys. -/
theorem assessComplexity_mem (d : String) :
    assessComplexity d = "simple" ∨ assessComplexity d = "medium" ∨
      assessComplexity d = "complex" :=
  ite3_mem _ _

/-- Every template stored in the decomposition table is non-empty. -/
theorem table_some_ne_nil (tt cc : String) (l : List String)
    (h : decompositionTable tt cc = some l) : l ≠ [] := by
  unfold decompositionTable at h
  rcases hf : decompositionRows.find? fun r => r.1 == tt with _ | r
  · simp only [hf] at h
    exact Option.noConfusion h
  · simp only [hf] at h
    rcases hg : r.2.find? fun c => c.1 == cc with _ | c
    · rw [hg] at h
      exact Option.noConfusion h
    · simp only [hg, Option.map_some] at h
      injection h with h2
      subst h2
      have hr := List.mem_of_find?_eq_some hf
      have hc := List.mem_of_find?_eq_some hg
      have hall : ∀ row ∈ decompositionRows, ∀ p ∈ row.2, p.2 ≠ [] := by decide
      exact hall r hr c hc

/-- The fallback template list is non-empty whenever the complexity is one of
the three values `assessComplexity` produces. -/
theorem fallback_ne_nil (now : Nat) (desc tt cc : String)
    (hcc : cc = "simple" ∨ cc = "medium" ∨ cc = "complex") :
    decomposeTaskFallback now desc tt cc ≠ [] := by
  unfold decomposeTaskFallback
  dsimp only
  intro hnil
  rw [List.map_eq_nil_iff, List.enum_eq_nil] at hnil
  rcases htab : decompositionTable tt cc with _ | l
  · rw [htab] at hnil
    simp only [Option.getD_none] at hnil
    rcases hcc with hc | hc | hc <;> rw [hc] at hnil <;> exact absurd hnil (by decide)
  · rw [htab] at hnil
    simp only [Option.getD_some] at hnil
    exact table_some_ne_nil tt cc l htab hnil

/-- Chain dependencies: every subtask after the first depends exactly on the
previous subtask's id. -/
def ChainDeps (sts : List SubTask) : Prop :=
  ∀ i (h : i + 1 < sts.length),
    (sts.get ⟨i + 1, h⟩).dependencies = [(sts.get ⟨i, Nat.lt_of_succ_lt h⟩).id]

/-- The fallback template has chain dependencies. -/
theorem fallback_chain (now : Nat) (desc tt cc : String) :
    ChainDeps (decomposeTaskFallback now desc tt cc) := by
  intro i h
  unfold decomposeTaskFallback at h ⊢
  dsimp only at h ⊢
  simp only [List.get_eq_getElem, List.getElem_map, List.getElem_enum,
    List.length_map, List.enum_length] at h ⊢
  simp

/-- **C8**: if the LLM decomposition collaborator throws, planning does not
fail: the subtask list assigned to the task is exactly the static fallback
template for the computed (type, complexity); the template is non-empty, each
step after the first depends exactly on the previous step's id, and the task
at the end of `processTask` carries exactly these subtasks (same ids,
descriptions and dependencies, in order — execution only updates status,
output and timestamp fields). -/
theorem C8_fallback_template (w : World) (description e : String)
    (hreal : w.useRealLLM = true) (hdec : w.decompose = .error e) :
    plannedSubTasks w description =
        decomposeTaskFallback w.now description (determineTaskType description)
          (assessComplexity description) ∧
      plannedSubTasks w description ≠ [] ∧
      ChainDeps (plannedSubTasks w description) ∧
      (runTask w description).task.subTasks.map subSig =
        (plannedSubTasks w description).map subSig ∧
      (runTask w description).task.subTasks ≠ [] := by
  have hplan : plannedSubTasks w description =
      decomposeTaskFallback w.now description (determineTaskType description)
        (assessComplexity description) := by
    unfold plannedSubTasks
    simp only [hreal, hdec, if_true]
  have hne : plannedSubTasks w description ≠ [] := by
    rw [hplan]
    exact fallback_ne_nil w.now description _ _ (assessComplexity_mem description)
  have hsig := runTask_subSig w description
  refine ⟨hplan, hne, ?_, hsig, ?_⟩
  · rw [hplan]
    exact fallback_chain w.now description _ _
  · intro h0
    apply hne
    have hlen := congrArg List.length hsig
    simp only [List.length_map] at hlen
    rw [h0] at hlen
    exact List.eq_nil_of_length_eq_zero hlen.symm

/-- A concrete collaborator world whose LLM decomposition always throws. -/
def c8World : World :=
  { now := 7,
    useRealLLM := true,
    decompose := .error "kimi unavailable",
    searchAgents := fun _ _ => .ok [],
    genAgent := fun d => .ok
      { id := "agent_gen", name := "Gen", description := d, skills := [],
        status := .idle, source := .generated, createdAt := 7 },
    execPrimary := fun _ _ => .ok (.str "done"),
    execSandbox := fun _ => .ok { output := "out", success := true, executionTime := 3 },
    generatePDF := fun _ => .error "no pdf",
    stringify := fun _ => "json" }

/-- **C8** — witness: the theorem applied to the concrete world `c8World`,
whose decomposition collaborator always throws. -/
theorem C8_witness :
    c8World.useRealLLM = true ∧ c8World.decompose = .error "kimi unavailable" ∧
    (plannedSubTasks c8World "Analyze the quarterly data" =
        decomposeTaskFallback c8World.now "Analyze the quarterly data"
          (determineTaskType "Analyze the quarterly data")
          (assessComplexity "Analyze the quarterly data") ∧
      plannedSubTasks c8World "Analyze the quarterly data" ≠ [] ∧
      ChainDeps (plannedSubTasks c8World "Analyze the quarterly data") ∧
      (runTask c8World "Analyze the quarterly data").task.subTasks.map subSig =
        (plannedSubTasks c8World "Analyze the quarterly data").map subSig ∧
      (runTask c8World "Analyze the quarterly data").task.subTasks ≠ []) :=
  ⟨rfl, rfl,
    C8_fallback_template c8World "Analyze the quarterly data" "kimi unavailable" rfl rfl⟩

/-! ### Claim C9: executor failure isolation

Substring lemmas for `strIncludes`, used to locate a failed subtask's entry in
the aggregated report. -/

theorem startsWithList_refl : ∀ l : List Char, startsWithList l l = true := by
  intro l
  induction l with
  | nil => rfl
  | cons c cs ih =>
    unfold startsWithList
    rw [Bool.and_eq_true]
    exact ⟨beq_self_eq_true c, ih⟩

theorem startsWithList_append (b : List Char) :
    ∀ (n x : List Char), startsWithList x n = true →
      startsWithList (x ++ b) n = true := by
  intro n
  induction n with
  | nil => intro x _; cases x ++ b <;> rfl
  | cons d ds ih =>
    intro x h
    cases x with
    | nil => exact absurd h (by simp [startsWithList])
    | cons c cs =>
      unfold startsWithList at h
      rw [Bool.and_eq_true] at h
      show ((c == d) && startsWithList (cs ++ b) ds) = true
      rw [Bool.and_eq_true]
      exact ⟨h.1, ih cs h.2⟩

theorem hasSubList_nil : ∀ l : List Char, hasSubList l [] = true := by
  intro l
  cases l with
  | nil => rfl
  | cons c cs =>
    unfold hasSubList
    rw [Bool.or_eq_true]
    exact .inl (by rfl)

theorem hasSubList_append_left (b : List Char) :
    ∀ (a n : List Char), hasSubList a n = true → hasSubList (a ++ b) n = true := by
  intro a
  induction a with
  | nil =>
    intro n h
    have : n = [] := by simpa [hasSubList, List.isEmpty_iff] using h
    subst this
    exact hasSubList_nil b
  | cons c cs ih =>
    intro n h
    unfold hasSubList at h
    rw [Bool.or_eq_true] at h
    show (startsWithList (c :: (cs ++ b)) n || hasSubList (cs ++ b) n) = true
    rw [Bool.or_eq_true]
    rcases h with h1 | h2
    · exact .inl (startsWithList_append b n (c :: cs) h1)
    · exact .inr (ih n h2)

theorem hasSubList_append_right (a : List Char) :
    ∀ (b n : List Char), hasSubList b n = true → hasSubList (a ++ b) n = true := by
  induction a with
  | nil => intro b n h; exact h
  | cons c cs ih =>
    intro b n h
    show hasSubList (c :: (cs ++ b)) n = true
    unfold hasSubList
    rw [Bool.or_eq_true]
    exact .inr (ih b n h)

theorem strIncludes_append_left (a b n : String) (h : strIncludes a n = true) :
    strIncludes (a ++ b) n = true := by
  unfold strIncludes at h ⊢
  rw [String.data_append]
  exact hasSubList_append_left b.data a.data n.data h

theorem strIncludes_append_right (a b n : String) (h : strIncludes b n = true) :
    strIncludes (a ++ b) n = true := by
  unfold strIncludes at h ⊢
  rw [String.data_append]
  exact hasSubList_append_right a.data b.data n.data h

theorem strIncludes_self (s : String) : strIncludes s s = true := by
  unfold strIncludes
  cases hd : s.data with
  | nil => rfl
  | cons c cs =>
    unfold hasSubList
    rw [Bool.or_eq_true]
    exact .inl (startsWithList_refl (c :: cs))

theorem foldl_concat_prefix {α : Type} (g : α → String) :
    ∀ (l : List α) (init : String),
      ∃ rest, l.foldl (fun acc x => acc ++ g x) init = init ++ rest := by
  intro l
  induction l with
  | nil => intro init; exact ⟨"", (String.append_empty init).symm⟩
  | cons y r ih =>
    intro init
    obtain ⟨rest, hr⟩ := ih (init ++ g y)
    rw [List.foldl_cons, hr, String.append_assoc]
    exact ⟨g y ++ rest, rfl⟩

theorem foldl_concat_mem {α : Type} (g : α → String) :
    ∀ (l : List α) (init : String) (x : α), x ∈ l →
      strIncludes (l.foldl (fun acc y => acc ++ g y) init) (g x) = true := by
  intro l
  induction l with
  | nil => intro init x hx; cases hx
  | cons y r ih =>
    intro init x hx
    rw [List.foldl_cons]
    rcases List.mem_cons.mp hx with h1 | h2
    · subst h1
      obtain ⟨rest, hr⟩ := foldl_concat_prefix g r (init ++ g x)
      rw [hr, String.append_assoc]
      apply strIncludes_append_right
      apply strIncludes_append_left
      exact strIncludes_self (g x)
    · exact ih (init ++ g y) x h2

/-- Every error-status subtask's description is listed (as a `- description`
line of the Failed Subtasks block) in the aggregated report. -/
theorem aggregateResults_mentions (f : JsVal → String) (t : Task) (st : SubTask)
    (hmem : st ∈ t.subTasks) (herr : st.status = .error) :
    strIncludes (aggregateResults f t) ("- " ++ st.description ++ "\n") = true := by
  unfold aggregateResults
  dsimp only
  have hmf : st ∈ t.subTasks.filter fun x => x.status == .error :=
    List.mem_filter.mpr ⟨hmem, by rw [herr]; rfl⟩
  have hlen : 0 < (t.subTasks.filter fun x => x.status == .error).length :=
    List.length_pos.mpr (List.ne_nil_of_mem hmf)
  rw [if_pos hlen]
  obtain ⟨rest, hr⟩ := foldl_concat_prefix (summaryLine f t) t.subTasks _
  rw [hr]
  apply strIncludes_append_left
  apply strIncludes_append_left
  apply strIncludes_append_right
  unfold failedBlock
  apply strIncludes_append_left
  apply strIncludes_append_right
  exact foldl_concat_mem (fun x => "- " ++ x.description ++ "\n")
    (t.subTasks.filter fun x => x.status == .error) "" st hmf

theorem phaseFinish_status (w : World) (s : OrchState) (plan : ExecutionPlan) :
    (phaseFinish w s plan).task.status = .completed := rfl

/-- The final task result is the aggregated report of a task carrying exactly
the final subtask list. -/
theorem phaseFinish_report (w : World) (s : OrchState) (plan : ExecutionPlan) :
    ∃ t : Task,
      (phaseFinish w s plan).task.result = some (aggregateResults w.stringify t) ∧
      t.subTasks = (phaseFinish w s plan).task.subTasks :=
  ⟨_, rfl, rfl⟩

theorem phaseFinish_mentions (w : World) (s : OrchState) (plan : ExecutionPlan)
    (st : SubTask) (hmem : st ∈ (phaseFinish w s plan).task.subTasks)
    (herr : st.status = .error) :
    strIncludes ((phaseFinish w s plan).task.result.getD "")
      ("- " ++ st.description ++ "\n") = true := by
  obtain ⟨t, hres, hsubs⟩ := phaseFinish_report w s plan
  rw [hres, Option.getD_some]
  exact aggregateResults_mentions w.stringify t st (by rw [hsubs]; exact hmem) herr

theorem agentLoop_no_err (w : World) (gh : List Agent)
    (hgen : ∀ d, ∃ a, w.genAgent d = .ok a) :
    ∀ (l : List SubTask) (s : OrchState) (acc : List Agent),
      (agentLoop w gh s acc l).2.2.2 = none := by
  intro l
  induction l with
  | nil => intro s acc; rfl
  | cons st rest ih =>
    intro s acc
    unfold agentLoop
    dsimp only
    split
    · exact ih _ _
    · obtain ⟨a, ha⟩ := hgen st.description
      rw [ha]
      dsimp only
      exact ih _ _

theorem discover_no_err (w : World) (s : OrchState)
    (hsearch : ∀ d t, ∃ ags, w.searchAgents d t = .ok ags)
    (hgen : ∀ d, ∃ a, w.genAgent d = .ok a) :
    (discoverOrGenerateAgents w s).2.2.2 = none := by
  unfold discoverOrGenerateAgents
  dsimp only
  obtain ⟨ags, hok⟩ := hsearch s.task.description (determineTaskType s.task.description)
  rw [hok]
  exact agentLoop_no_err w ags hgen _ _ _

/-- The first-revision plan construction succeeds on duplicate-free ids with
the fuel `processTask` supplies. -/
theorem planV1_exists {ts : List SubTask} (hids : (subTaskIds ts).Nodup) :
    ∃ plan, createExecutionPlanV1 ts.length ts = some plan := by
  obtain ⟨gs, hrun⟩ :=
    @runPlanV2_terminates false ts hids ts.length ⟨[], []⟩ (fullInv_init ts) (by simp)
  unfold createExecutionPlanV1
  rw [runPlanV1_eq_runPlanV2_false, hrun]
  exact ⟨_, rfl⟩

theorem subTaskIds_of_subSig_eq {l1 l2 : List SubTask}
    (h : l1.map subSig = l2.map subSig) : subTaskIds l1 = subTaskIds l2 := by
  have h2 := congrArg (List.map Prod.fst) h
  simpa [subTaskIds, List.map_map, subSig, Function.comp] using h2

/-- When agent search and generation succeed and the planned subtask ids are
duplicate-free, `processTask` drives the task to `completed` and lists every
error-status subtask in the final report. -/
theorem processTask_completes (w : World) (description : String)
    (hsearch : ∀ d t, ∃ ags, w.searchAgents d t = .ok ags)
    (hgen : ∀ d, ∃ a, w.genAgent d = .ok a)
    (hids : (subTaskIds (plannedSubTasks w description)).Nodup) :
    (runTask w description).task.status = .completed ∧
    ∀ st ∈ (runTask w description).task.subTasks, st.status = .error →
      strIncludes ((runTask w description).task.result.getD "")
        ("- " ++ st.description ++ "\n") = true := by
  unfold runTask processTask
  dsimp only
  rcases h : discoverOrGenerateAgents w (phasePlanAssign w (phaseAnalyze w
      { task := initTask w description, statuses := [.pending], events := [] })) with
    ⟨s1, ag, sts', e⟩
  have he : e = none := by
    have h2 := discover_no_err w (phasePlanAssign w (phaseAnalyze w
      { task := initTask w description, statuses := [.pending], events := [] }))
      hsearch hgen
    rw [h] at h2
    exact h2
  subst he
  dsimp only
  have hsig : sts'.map subSig = (plannedSubTasks w description).map subSig := by
    have h2 := discover_subSig w (phasePlanAssign w (phaseAnalyze w
      { task := initTask w description, statuses := [.pending], events := [] }))
    rw [h] at h2
    dsimp only at h2
    rw [phasePlanAssign_subTasks, phaseAnalyze_description] at h2
    exact h2
  have hids2 : (subTaskIds sts').Nodup := by
    rw [subTaskIds_of_subSig_eq hsig]
    exact hids
  obtain ⟨plan, hplan⟩ := planV1_exists hids2
  split
  · rename_i hnone
    have hnone2 : createExecutionPlanV1 sts'.length sts' = none := hnone
    rw [hplan] at hnone2
    cases hnone2
  · rename_i plan2 hsome
    refine ⟨phaseFinish_status w _ _, ?_⟩
    intro st hmem herr
    exact phaseFinish_mentions w _ _ st hmem herr

theorem findFirst_decomp {α : Type} (p : α → Bool) (st : α) (post : List α) :
    ∀ pre : List α, (∀ y ∈ pre, p y = false) → p st = true →
      (pre ++ st :: post).find? p = some st := by
  intro pre
  induction pre with
  | nil =>
    intro _ hst
    rw [List.nil_append]
    exact List.find?_cons_of_pos post hst
  | cons y r ih =>
    intro hpre hst
    rw [List.cons_append,
      List.find?_cons_of_neg _ (by simp [hpre y (List.mem_cons_self y r)])]
    exact ih (fun z hz => hpre z (List.mem_cons_of_mem y hz)) hst

theorem updateFirstSub_decomp (id : String) (f : SubTask → SubTask) (st : SubTask)
    (post : List SubTask) :
    ∀ pre : List SubTask, (∀ y ∈ pre, (y.id == id) = false) → (st.id == id) = true →
      updateFirstSub (pre ++ st :: post) id f = pre ++ f st :: post := by
  intro pre
  induction pre with
  | nil =>
    intro _ hst
    rw [List.nil_append, List.nil_append]
    show updateFirstSub (st :: post) id f = f st :: post
    unfold updateFirstSub
    rw [if_pos hst]
  | cons y r ih =>
    intro hpre hst
    rw [List.cons_append, List.cons_append]
    show updateFirstSub (y :: (r ++ st :: post)) id f = y :: (r ++ f st :: post)
    unfold updateFirstSub
    rw [if_neg (by simp [hpre y (List.mem_cons_self y r)]),
      ih (fun z hz => hpre z (List.mem_cons_of_mem y hz)) hst]

theorem updateFirstAgent_decomp (id : String) (f : Agent → Agent) (ag : Agent)
    (post : List Agent) :
    ∀ pre : List Agent, (∀ y ∈ pre, (y.id == id) = false) → (ag.id == id) = true →
      updateFirstAgent (pre ++ ag :: post) id f = pre ++ f ag :: post := by
  intro pre
  induction pre with
  | nil =>
    intro _ hst
    rw [List.nil_append, List.nil_append]
    show updateFirstAgent (ag :: post) id f = f ag :: post
    unfold updateFirstAgent
    rw [if_pos hst]
  | cons y r ih =>
    intro hpre hst
    rw [List.cons_append, List.cons_append]
    show updateFirstAgent (y :: (r ++ ag :: post)) id f = y :: (r ++ f ag :: post)
    unfold updateFirstAgent
    rw [if_neg (by simp [hpre y (List.mem_cons_self y r)]),
      ih (fun z hz => hpre z (List.mem_cons_of_mem y hz)) hst]

/-! Frame lemmas for `events` and `task.agents`. -/

theorem logS_events (w : World) (s : OrchState) (level : LogLevel) (msg : String)
    (a b : Option String) : (logS w s level msg a b).events = s.events := rfl

theorem modifySub_events (s : OrchState) (id : String) (f : SubTask → SubTask) :
    (modifySub s id f).events = s.events := rfl

theorem modifyAgent_events (s : OrchState) (id : String) (f : Agent → Agent) :
    (modifyAgent s id f).events = s.events := rfl

theorem eventsSet_events (s : OrchState) (evs : List ExecEv) :
    ({ s with events := evs } : OrchState).events = evs := rfl

theorem failUpdate_events (w : World) (s : OrchState) (st : SubTask) (agent : Agent)
    (e : String) : (failUpdate w s st agent e).events = s.events := rfl

theorem logS_agents (w : World) (s : OrchState) (level : LogLevel) (msg : String)
    (a b : Option String) : (logS w s level msg a b).task.agents = s.task.agents := rfl

theorem modifySub_agents (s : OrchState) (id : String) (f : SubTask → SubTask) :
    (modifySub s id f).task.agents = s.task.agents := rfl

theorem events_agents (s : OrchState) (evs : List ExecEv) :
    ({ s with events := evs } : OrchState).task.agents = s.task.agents := rfl

theorem modifyAgent_agents (s : OrchState) (id : String) (f : Agent → Agent) :
    (modifyAgent s id f).task.agents = updateFirstAgent s.task.agents id f := rfl

theorem modifySub_subTasks (s : OrchState) (id : String) (f : SubTask → SubTask) :
    (modifySub s id f).task.subTasks = updateFirstSub s.task.subTasks id f := rfl

/-! Stage reductions of `executeSubTask` under the double-failure hypotheses. -/

theorem execTry_bothFail_eq (w : World) (s : OrchState) (st : SubTask) (agent : Agent)
    (id e1 : String) (hreal : w.useRealLLM = true)
    (hprim : w.execPrimary (agent.code.getD "") st.description = .error e1) :
    execTry w s st agent id =
      execAfterPrimaryFail w
        { logS w (logS w s .info ("Starting execution for: " ++ st.description)
              (some id) (some agent.id)) .info "Calling DeepSeek API for execution..."
              (some id) (some agent.id) with
          events := s.events ++ [.callPrimary id] }
        st agent id e1 := by
  unfold execTry
  dsimp only
  rw [hreal, if_pos rfl, hprim]
  rfl

theorem execAfterPrimaryFail_code_eq (w : World) (s : OrchState) (st : SubTask)
    (agent : Agent) (id e1 code : String) (hcode : agent.code = some code)
    (hcne : (code == "") = false) :
    execAfterPrimaryFail w s st agent id e1 =
      execSandboxCall w
        (logS w s .warn ("DeepSeek API failed: " ++ e1 ++ ", trying sandbox...")
          (some id) (some agent.id))
        st agent id code := by
  unfold execAfterPrimaryFail
  dsimp only
  rw [hcode]
  dsimp only
  rw [if_neg (by simp [hcne])]

theorem execSandboxCall_fail_eq (w : World) (s : OrchState) (st : SubTask)
    (agent : Agent) (id code e2 : String) (hsand : w.execSandbox code = .error e2) :
    execSandboxCall w s st agent id code =
      failUpdate w
        (logS w { s with events := s.events ++ [.callSandbox id] } .error
          ("Sandbox also failed: " ++ e2) (some id) (some agent.id))
        st agent e2 := by
  unfold execSandboxCall
  dsimp only
  rw [hsand]

theorem eventsSet_statuses (s : OrchState) (evs : List ExecEv) :
    ({ s with events := evs } : OrchState).statuses = s.statuses := rfl

theorem failUpdate_subTasks (w : World) (s : OrchState) (st : SubTask) (agent : Agent)
    (e : String) :
    (failUpdate w s st agent e).task.subTasks =
      updateFirstSub s.task.subTasks st.id fun x => { x with status := .error } := rfl

theorem failUpdate_agents (w : World) (s : OrchState) (st : SubTask) (agent : Agent)
    (e : String) :
    (failUpdate w s st agent e).task.agents =
      updateFirstAgent s.task.agents agent.id fun a =>
        { a with status := .error, error := some e } := rfl

/-- `executeSubTask` when the primary executor and the sandbox both throw: the
target subtask ends in `error` (siblings untouched), the bound agent ends in
`error` with the sandbox error recorded (other agents untouched), each
executor is invoked exactly once (no retry) and no task-level status change
occurs. -/
theorem executeSubTask_bothFail (w : World) (s : OrchState) (id : String)
    (st : SubTask) (agent : Agent) (pre post : List SubTask)
    (preA postA : List Agent) (e1 code e2 : String)
    (hsub : s.task.subTasks = pre ++ st :: post)
    (hpre : ∀ y ∈ pre, (y.id == id) = false)
    (hid : (st.id == id) = true)
    (hag : s.task.agents = preA ++ agent :: postA)
    (hpreA : ∀ y ∈ preA, (st.agentId == some y.id) = false)
    (hagid : (st.agentId == some agent.id) = true)
    (hreal : w.useRealLLM = true)
    (hprim : w.execPrimary (agent.code.getD "") st.description = .error e1)
    (hcode : agent.code = some code)
    (hcne : (code == "") = false)
    (hsand : w.execSandbox code = .error e2) :
    (executeSubTask w s id).task.subTasks =
        pre ++ { st with status := .error, startedAt := some w.now } :: post ∧
      (executeSubTask w s id).task.agents =
        preA ++ { agent with status := .error, error := some e2 } :: postA ∧
      (executeSubTask w s id).events =
        s.events ++ [.callPrimary id, .callSandbox id] ∧
      (executeSubTask w s id).statuses = s.statuses := by
  have hideq : st.id = id := eq_of_beq hid
  have hagid2 : st.agentId = some agent.id := eq_of_beq hagid
  have hpre2 : ∀ y ∈ pre, (y.id == st.id) = false := by
    intro y hy
    rw [hideq]
    exact hpre y hy
  have hpreA2 : ∀ y ∈ preA, (y.id == agent.id) = false := by
    intro y hy
    by_contra hcon
    rw [Bool.not_eq_false] at hcon
    have hyid : y.id = agent.id := eq_of_beq hcon
    have h5 := hpreA y hy
    rw [hagid2, hyid] at h5
    simp at h5
  have hfind1 : (s.task.subTasks.find? fun x => x.id == id) = some st := by
    rw [hsub]
    exact findFirst_decomp _ st post pre hpre hid
  have hfind2 : (s.task.agents.find? fun a => st.agentId == some a.id) = some agent := by
    rw [hag]
    exact findFirst_decomp _ agent postA preA hpreA hagid
  have hrun : executeSubTask w s id =
      execTry w
        (logS w (modifyAgent (modifySub s st.id fun x =>
            { x with status := .running, startedAt := some w.now }) agent.id fun a =>
            { a with status := .running })
          .info ("Agent " ++ agent.name ++ " executing: " ++ st.description)
          (some id) (some agent.id)) st agent id := by
    unfold executeSubTask
    rw [hfind1]
    dsimp only
    rw [hfind2]
  refine ⟨?_, ?_, ?_, ?_⟩ <;>
    rw [hrun, execTry_bothFail_eq w _ st agent id e1 hreal hprim,
      execAfterPrimaryFail_code_eq w _ st agent id e1 code hcode hcne,
      execSandboxCall_fail_eq w _ st agent id code e2 hsand]
  · rw [failUpdate_subTasks]
    simp only [logS_subTasks, events_subTasks, modifyAgent_subTasks, modifySub_subTasks]
    rw [hsub,
      updateFirstSub_decomp st.id _ st post pre hpre2 (beq_self_eq_true st.id)]
    rw [updateFirstSub_decomp st.id _
      { st with status := .running, startedAt := some w.now } post pre hpre2
      (beq_self_eq_true st.id)]
  · rw [failUpdate_agents]
    simp only [logS_agents, events_agents, modifySub_agents, modifyAgent_agents]
    rw [hag,
      updateFirstAgent_decomp agent.id _ agent postA preA hpreA2
        (beq_self_eq_true agent.id)]
    rw [updateFirstAgent_decomp agent.id _ { agent with status := .running } postA preA
      hpreA2 (beq_self_eq_true agent.id)]
  · simp only [failUpdate_events, logS_events, eventsSet_events, modifySub_events,
      modifyAgent_events, List.append_assoc]
    rfl
  · simp only [failUpdate_statuses, logS_statuses, eventsSet_statuses,
      modifySub_statuses, modifyAgent_statuses]

/-- **C9**: (1) if for a given subtask the primary executor fails and the
sandbox fallback also fails, `executeSubTask` marks that subtask `error` and
its bound agent `error` with the error message recorded on the agent, invokes
each executor exactly once (no retry), leaves every sibling subtask and agent
untouched and changes no task-level status; (2) the failure does not
propagate: whenever agent search and generation succeed and the planned ids
are duplicate-free, the task still reaches status `completed` — whatever the
executors do — and every error-status subtask is listed in the aggregated
report's Failed Subtasks section. -/
theorem C9_failure_isolation :
    (∀ (w : World) (s : OrchState) (id : String) (st : SubTask) (agent : Agent)
        (pre post : List SubTask) (preA postA : List Agent) (e1 code e2 : String),
      s.task.subTasks = pre ++ st :: post →
      (∀ y ∈ pre, (y.id == id) = false) →
      (st.id == id) = true →
      s.task.agents = preA ++ agent :: postA →
      (∀ y ∈ preA, (st.agentId == some y.id) = false) →
      (st.agentId == some agent.id) = true →
      w.useRealLLM = true →
      w.execPrimary (agent.code.getD "") st.description = .error e1 →
      agent.code = some code →
      (code == "") = false →
      w.execSandbox code = .error e2 →
        (executeSubTask w s id).task.subTasks =
            pre ++ { st with status := .error, startedAt := some w.now } :: post ∧
          (executeSubTask w s id).task.agents =
            preA ++ { agent with status := .error, error := some e2 } :: postA ∧
          (executeSubTask w s id).events =
            s.events ++ [.callPrimary id, .callSandbox id] ∧
          (executeSubTask w s id).statuses = s.statuses) ∧
    (∀ (w : World) (description : String),
      (∀ d t, ∃ ags, w.searchAgents d t = .ok ags) →
      (∀ d, ∃ a, w.genAgent d = .ok a) →
      (subTaskIds (plannedSubTasks w description)).Nodup →
        (runTask w description).task.status = .completed ∧
        ∀ st ∈ (runTask w description).task.subTasks, st.status = .error →
          strIncludes ((runTask w description).task.result.getD "")
            ("- " ++ st.description ++ "\n") = true) :=
  ⟨executeSubTask_bothFail, processTask_completes⟩

/-- A world whose primary executor and sandbox both always throw, while agent
search and generation succeed. -/
def c9World : World :=
  { now := 11,
    useRealLLM := true,
    decompose := .error "decompose down",
    searchAgents := fun _ _ => .ok [],
    genAgent := fun d => .ok
      { id := "agent_gen", name := "Gen", description := d, skills := [],
        status := .idle, code := some "x", source := .generated, createdAt := 11 },
    execPrimary := fun _ _ => .error "primary down",
    execSandbox := fun _ => .error "sandbox down",
    generatePDF := fun _ => .error "no pdf",
    stringify := fun _ => "json" }

def c9Sub (i : String) (aid : Option String) : SubTask :=
  { id := i, description := "step " ++ i, dependencies := [], status := .pending,
    input := { parentTask := "t", step := 1 }, createdAt := 11, agentId := aid }

def c9Agent : Agent :=
  { id := "ag1", name := "A1", description := "first agent", skills := [],
    status := .idle, code := some "x", source := .generated, createdAt := 11 }

def c9AgentB : Agent :=
  { id := "ag2", name := "A2", description := "second agent", skills := [],
    status := .idle, code := some "y", source := .generated, createdAt := 11 }

def c9Task : Task :=
  { id := "task_11", description := "demo", status := .executing,
    subTasks := [c9Sub "s1" (some "ag1"), c9Sub "s2" (some "ag2")],
    agents := [c9Agent, c9AgentB], createdAt := 11, logs := [] }

def c9State : OrchState :=
  { task := c9Task, statuses := [.pending], events := [] }

/-- **C9** — witness: both halves of the theorem applied to concrete inputs
(the world `c9World`, whose executors always throw). -/
theorem C9_witness :
    ((executeSubTask c9World c9State "s1").task.subTasks =
        [{ c9Sub "s1" (some "ag1") with status := .error, startedAt := some 11 },
          c9Sub "s2" (some "ag2")] ∧
      (executeSubTask c9World c9State "s1").task.agents =
        [{ c9Agent with status := .error, error := some "sandbox down" }, c9AgentB] ∧
      (executeSubTask c9World c9State "s1").events =
        c9State.events ++ [.callPrimary "s1", .callSandbox "s1"] ∧
      (executeSubTask c9World c9State "s1").statuses = c9State.statuses) ∧
    ((runTask c9World "Write a short poem").task.status = .completed ∧
      ∀ st ∈ (runTask c9World "Write a short poem").task.subTasks,
        st.status = .error →
          strIncludes ((runTask c9World "Write a short poem").task.result.getD "")
            ("- " ++ st.description ++ "\n") = true) :=
  ⟨C9_failure_isolation.1 c9World c9State "s1" (c9Sub "s1" (some "ag1")) c9Agent
      [] [c9Sub "s2" (some "ag2")] [] [c9AgentB] "primary down" "x" "sandbox down"
      (by rfl) (by simp) (by decide) (by rfl) (by simp) (by decide) rfl rfl rfl
      (by decide) rfl,
    C9_failure_isolation.2 c9World "Write a short poem"
      (fun d t => ⟨[], rfl⟩) (fun d => ⟨_, rfl⟩) (by decide)⟩

/-! ### Claim C10: the listener bus (`subscribe` / `notifyListeners`)

`listeners` is a JS `Set`, modelled as a duplicate-free list in insertion
order.  `subscribe` adds a listener and returns a closure deleting it;
during `notifyListeners`' `for (const listener of this.listeners)` loop a
listener may therefore only *delete* listeners.  JS `Set` iteration visits,
in insertion order, exactly the elements not yet deleted when their turn
comes.  `eff y` is the set of listeners whose unsubscribe closures listener
`y` calls when invoked; `runNotifyAux` accumulates the deleted set and
returns the sequence of listeners actually invoked. -/

/-- JS `Set.prototype.add` on the insertion-ordered element list. -/
def subscribeL {α : Type} [DecidableEq α] (ls : List α) (x : α) : List α :=
  if x ∈ ls then ls else ls ++ [x]

/-- JS `Set.prototype.delete` (the unsubscribe closure). -/
def unsubscribeL {α : Type} [DecidableEq α] (ls : List α) (x : α) : List α :=
  ls.filter fun y => !(y == x)

/-- One `notifyListeners` call: walk the insertion-order element list,
skipping listeners already deleted, invoking the rest (each invocation
deleting `eff` of the invoked listener). -/
def runNotifyAux {α : Type} [DecidableEq α] (eff : α → List α) :
    List α → List α → List α
  | _, [] => []
  | deleted, x :: rest =>
    if x ∈ deleted then runNotifyAux eff deleted rest
    else x :: runNotifyAux eff (deleted ++ eff x) rest

/-- The sequence of listeners `notifyListeners` invokes, starting from the
subscribed set `ls`. -/
def notifyInvoked {α : Type} [DecidableEq α] (eff : α → List α) (ls : List α) :
    List α :=
  runNotifyAux eff [] ls

theorem runNotifyAux_sublist {α : Type} [DecidableEq α] (eff : α → List α) :
    ∀ (L deleted : List α), (runNotifyAux eff deleted L).Sublist L := by
  intro L
  induction L with
  | nil => intro deleted; exact List.Sublist.refl []
  | cons z rest ih =>
    intro deleted
    unfold runNotifyAux
    split
    · exact (ih deleted).cons z
    · exact (ih (deleted ++ eff z)).cons₂ z

theorem runNotifyAux_skip {α : Type} [DecidableEq α] (eff : α → List α) :
    ∀ (L deleted : List α) (x : α), x ∈ L → x ∉ runNotifyAux eff deleted L →
      x ∈ deleted ∨ ∃ y ∈ runNotifyAux eff deleted L, x ∈ eff y := by
  intro L
  induction L with
  | nil => intro deleted x hx _; cases hx
  | cons z rest ih =>
    intro deleted x hx hnx
    unfold runNotifyAux at hnx ⊢
    by_cases hz : z ∈ deleted
    · rw [if_pos hz] at hnx ⊢
      rcases List.mem_cons.mp hx with h1 | h2
      · exact .inl (h1 ▸ hz)
      · exact ih deleted x h2 hnx
    · rw [if_neg hz] at hnx ⊢
      rcases List.mem_cons.mp hx with h1 | h2
      · exact absurd (h1 ▸ List.mem_cons_self z _) hnx
      · have hnx2 : x ∉ runNotifyAux eff (deleted ++ eff z) rest := fun hc =>
          hnx (List.mem_cons_of_mem z hc)
        rcases ih (deleted ++ eff z) x h2 hnx2 with hdel | ⟨y, hy, hyx⟩
        · rcases List.mem_append.mp hdel with hd1 | hd2
          · exact .inl hd1
          · exact .inr ⟨z, List.mem_cons_self z _, hd2⟩
        · exact .inr ⟨y, List.mem_cons_of_mem z hy, hyx⟩

theorem runNotifyAux_total {α : Type} [DecidableEq α] (eff : α → List α)
    (heff : ∀ x, eff x = []) :
    ∀ L : List α, runNotifyAux eff [] L = L := by
  intro L
  induction L with
  | nil => rfl
  | cons z rest ih =>
    unfold runNotifyAux
    rw [if_neg (List.not_mem_nil z), heff z]
    simp only [List.append_nil]
    rw [ih]

theorem subscribeL_nodup {α : Type} [DecidableEq α] (ls : List α) (y : α)
    (h : ls.Nodup) : (subscribeL ls y).Nodup := by
  unfold subscribeL
  split
  · exact h
  · rename_i hny
    rw [List.nodup_append]
    exact ⟨h, List.nodup_singleton y,
      fun a ha hay => hny ((List.mem_singleton.mp hay) ▸ ha)⟩

/-- **C10**: a `notifyListeners` call, with listeners free to unsubscribe
(themselves or others) during the call, invokes listeners in subscription
order, each at most once (a sublist of the duplicate-free listener set, hence
no duplicates), never crashes (`notifyInvoked` is total), skips a listener
only if some invoked listener unsubscribed it — so no unrelated
still-subscribed listener is ever skipped — and when nobody unsubscribes it
invokes every subscribed listener exactly once, in order; `subscribe` keeps
the listener set duplicate-free. -/
theorem C10_notify_exactly_once {α : Type} [DecidableEq α] (eff : α → List α)
    (L : List α) (hset : L.Nodup) :
    (notifyInvoked eff L).Sublist L ∧
    (notifyInvoked eff L).Nodup ∧
    (∀ x ∈ L, x ∉ notifyInvoked eff L → ∃ y ∈ notifyInvoked eff L, x ∈ eff y) ∧
    ((∀ x, eff x = []) → notifyInvoked eff L = L) ∧
    (∀ (ls : List α) (y : α), ls.Nodup → (subscribeL ls y).Nodup) := by
  refine ⟨runNotifyAux_sublist eff L [], (runNotifyAux_sublist eff L []).nodup hset,
    ?_, fun heff => runNotifyAux_total eff heff L, fun ls y h => subscribeL_nodup ls y h⟩
  intro x hx hnx
  rcases runNotifyAux_skip eff L [] x hx hnx with hdel | hex
  · exact absurd hdel (List.not_mem_nil x)
  · exact hex

/-- A concrete listener behaviour: the first listener unsubscribes the
second. -/
def c10eff : String → List String := fun x => if x == "l1" then ["l2"] else []

/-- **C10** — witness: the theorem applied to three listeners of which the
first unsubscribes the second mid-notify. -/
theorem C10_witness :
    (["l1", "l2", "l3"] : List String).Nodup ∧
    ((notifyInvoked c10eff ["l1", "l2", "l3"]).Sublist ["l1", "l2", "l3"] ∧
      (notifyInvoked c10eff ["l1", "l2", "l3"]).Nodup ∧
      (∀ x ∈ ["l1", "l2", "l3"], x ∉ notifyInvoked c10eff ["l1", "l2", "l3"] →
        ∃ y ∈ notifyInvoked c10eff ["l1", "l2", "l3"], x ∈ c10eff y) ∧
      ((∀ x, c10eff x = []) →
        notifyInvoked c10eff ["l1", "l2", "l3"] = ["l1", "l2", "l3"]) ∧
      (∀ (ls : List String) (y : String), ls.Nodup → (subscribeL ls y).Nodup)) :=
  ⟨by decide, C10_notify_exactly_once c10eff ["l1", "l2", "l3"] (by decide)⟩

end AutoAgent
